import Mathlib

/-!
Verification of the terrain-aware planning core of the repository
(`src/plots/plot.py` and its collaborators).

The embedding follows the Python source closely.  Support modules that are
not part of the provided sources (`src/utils/coordinates.py`,
`src/blocks/collections/block_list.py`) are modelled from the
specification where a definition is marked `Modelled from the spec:`.

Machine integers of the source are Python arbitrary precision integers, so
they are embedded as `Int`/`Nat` without wrap-around.  Python floats enter
only through the distance term `coordinates.as_2D().distance(center) * .1`
and the foundation factor `int(to_add * .8)`; the distance term is carried
as an explicit nonnegative rational parameter (all claims compare scores
whose distance terms coincide), and `int(to_add * .8)` for a positive
integer `to_add` is the floor `4 * to_add / 5` (the float rounding of `.8`
never moves the product across an integer for the magnitudes the program
handles; the margin used by every theorem below is far larger).
-/

/-- Modelled from the spec: integer (x, y, z) triple in world space
(`src/utils/coordinates.py` is not among the provided sources). -/
structure Coordinates where
  x : Int
  y : Int
  z : Int
deriving DecidableEq, Repr

namespace Coordinates

/-- Modelled from the spec: 2D projection keeps (x, z) and drops the
height; the source stores such projections in the same sets as full
coordinates, so the projection is a coordinate with `y = 0`. -/
def as_2D (c : Coordinates) : Coordinates := ⟨c.x, 0, c.z⟩

/-- `Coordinates.shift`: translation by the given offsets. -/
def shift (c : Coordinates) (dx dy dz : Int) : Coordinates :=
  ⟨c.x + dx, c.y + dy, c.z + dz⟩

@[simp] theorem as_2D_x (c : Coordinates) : (as_2D c).x = c.x := rfl
@[simp] theorem as_2D_y (c : Coordinates) : (as_2D c).y = 0 := rfl
@[simp] theorem as_2D_z (c : Coordinates) : (as_2D c).z = c.z := rfl
@[simp] theorem shift_x (c : Coordinates) (a b d : Int) : (shift c a b d).x = c.x + a := rfl
@[simp] theorem shift_y (c : Coordinates) (a b d : Int) : (shift c a b d).y = c.y + b := rfl
@[simp] theorem shift_z (c : Coordinates) (a b d : Int) : (shift c a b d).z = c.z + d := rfl

end Coordinates

/-- `Size`: the 2D footprint size of a plot. -/
structure Size where
  x : Nat
  z : Nat
deriving DecidableEq, Repr

/-- `Plot.__init__`: a plot is determined by its start coordinates and its
size (`self.end` is derived as `start + (size.x, 255, size.z)`). -/
structure Plot where
  start : Coordinates
  size : Size
deriving DecidableEq, Repr

/-- Whether the character sequence `pat` occurs at the head of `s`. -/
def leadsWith : List Char → List Char → Bool
  | [], _ => true
  | _ :: _, [] => false
  | a :: as, b :: bs => a = b && leadsWith as bs

/-- Whether the character sequence `pat` occurs anywhere inside `s`
(Python's `pattern in name`). -/
def containsSeq (pat : List Char) : List Char → Bool
  | [] => pat.isEmpty
  | c :: rest => leadsWith pat (c :: rest) || containsSeq pat rest

/-- `Block.is_one_of`: true when one of the patterns occurs inside the
block name (substring matching, from `src/utils/block.py`). -/
def is_one_of (name : String) (patterns : List String) : Bool :=
  patterns.any fun pat => containsSeq pat.data name.data

/-- The world data a plot reads: the `MOTION_BLOCKING_NO_TREES` heightmap
(per world column) and the block name found at a coordinate
(`env.WORLD.getBlockAt`).  Both are external collaborators of the core
(§6 of the spec), so they are parameters of the embedding. -/
structure Terrain where
  height : Int → Int → Int
  blockName : Coordinates → String

/-- The surface block coordinates of world column `(X, Z)`:
`Coordinates(start.x + x, h - 1, start.z + z)` in `Plot.get_blocks`. -/
def surfaceCoord (t : Terrain) (X Z : Int) : Coordinates :=
  ⟨X, t.height X Z - 1, Z⟩

/-- Whether world column `(X, Z)` belongs to the plot (the ranges scanned
by `Plot.get_blocks` / `Plot.surface`). -/
def inPlot2D (p : Plot) (X Z : Int) : Bool :=
  p.start.x ≤ X && X < p.start.x + p.size.x &&
  p.start.z ≤ Z && Z < p.start.z + p.size.z

/-- `Plot.get_blocks(Criteria.MOTION_BLOCKING_NO_TREES).find(c)`.
Modelled from the spec: `BlockList.find` (not among the provided sources)
returns the surface sample of the queried cell, i.e. the lookup matches
by column `(x, z)`; it fails for columns outside the plot. -/
def surface_find (t : Terrain) (p : Plot) (c : Coordinates) : Option Coordinates :=
  if inPlot2D p c.x c.z then some (surfaceCoord t c.x c.z) else none

/-- Whether the surface block of column `(X, Z)` is water
(`block.is_one_of(('water',))`). -/
def waterAt (t : Terrain) (X Z : Int) : Bool :=
  is_one_of (t.blockName (surfaceCoord t X Z)) ["water"]

/-! ### Steepness analysis (`Plot.compute_steep_map` and friends) -/

/-- `Plot._delta_sum`: sum of absolute differences to the base value. -/
def delta_sum (values : List Int) (base : Int) : Int :=
  (values.map fun v => (base - v).natAbs).sum

/-- The `(2·span+1)²` window of heightmap values around plot offsets
`(i, j)` (row `heightmap[i-span : i+1+span, j-span : j+1+span]`),
`span = 2` (`self.steep_factor`). -/
def windowHeights (t : Terrain) (p : Plot) (i j : Int) : List Int :=
  ((List.range 5).map fun a =>
    (List.range 5).map fun b =>
      t.height (p.start.x + (i - 2 + a)) (p.start.z + (j - 2 + b))).flatten

/-- The steepness score written to `steep[i - span, j - span]` by
`Plot.compute_steep_map` for plot offsets `(i, j)`: the water sentinel, or
the windowed delta sum against the cell's own height. -/
def steepValue (t : Terrain) (p : Plot) (i j : Int) : Int :=
  if waterAt t (p.start.x + i) (p.start.z + j) then 100000000
  else delta_sum (windowHeights t p i j) (t.height (p.start.x + i) (p.start.z + j))

/-- `self.steep_map`: the row-major (x-major) flattening of the steepness
array, rows indexed by `i - span ∈ [0, size.x - 2·span)` and columns by
`j - span ∈ [0, size.z - 2·span)` (`numpy.ndarray.flatten` uses C order). -/
def steep_map (t : Terrain) (p : Plot) : List Int :=
  ((List.range (p.size.x - 4)).map fun (a : Nat) =>
    (List.range (p.size.z - 4)).map fun (b : Nat) =>
      steepValue t p (2 + (a : Int)) (2 + (b : Int))).flatten

/-- Python list indexing: negative indices count from the end, out of
range indexing fails. -/
def pyGet (l : List Int) (k : Int) : Option Int :=
  if 0 ≤ k then l.get? k.toNat
  else if k.natAbs ≤ l.length then l.get? (l.length - k.natAbs) else none

/-- The clamped inset row index of `Plot.get_steep_map_value`:
`i = min(max(i - self.steep_factor, 0), steep_map_size[0] - 1)` where the
raw `i` is `(coord - self.start).xz[0]`. -/
def clampedSteepIndex (startC X extent : Int) : Int :=
  min (max (X - startC - 2) 0) (extent - 1)

/-- `Plot.get_steep_map_value`: clamps the cell's inset indices into the
steepness grid and reads the flattened field at `j + i * steep_map_size[1]`
(where `steep_map_size = (size.x - 2·span, size.z - 2·span)`). -/
def get_steep_map_value (t : Terrain) (p : Plot) (coord : Coordinates) : Option Int :=
  pyGet (steep_map t p)
    (clampedSteepIndex p.start.z coord.z ((p.size.z : Int) - 2 * 2) +
     clampedSteepIndex p.start.x coord.x ((p.size.x : Int) - 2 * 2) * ((p.size.z : Int) - 2 * 2))

/-- `Plot.flat_heightmap_to_plot_block`: maps a flattened steepness index
back to a surface block, computing `x = index // side_length` and
`z = index - side_length * x` with `side_length = size.x - 2 * span`. -/
def flat_heightmap_to_plot_block (t : Terrain) (p : Plot) (index : Nat) : Option Coordinates :=
  surface_find t p
    (p.start.shift ((index : Int) / ((p.size.x : Int) - 2 * 2) + 2) 0
      ((index : Int) - ((p.size.x : Int) - 2 * 2) * ((index : Int) / ((p.size.x : Int) - 2 * 2)) + 2))

/-- Every steepness score is nonnegative: it is either the water sentinel
or a sum of absolute differences. -/
theorem steepValue_nonneg (t : Terrain) (p : Plot) (i j : Int) :
    0 ≤ steepValue t p i j := by
  unfold steepValue
  split
  · norm_num
  · unfold delta_sum
    positivity

/-- Every element of the flattened steepness field is a `steepValue`. -/
theorem steep_map_mem (t : Terrain) (p : Plot) {v : Int} (hv : v ∈ steep_map t p) :
    ∃ a b, v = steepValue t p (2 + a) (2 + b) := by
  unfold steep_map at hv
  rw [List.mem_flatten] at hv
  obtain ⟨row, hrow, hvr⟩ := hv
  rw [List.mem_map] at hrow
  obtain ⟨a, _, rfl⟩ := hrow
  rw [List.mem_map] at hvr
  obtain ⟨b, _, rfl⟩ := hvr
  exact ⟨a, b, rfl⟩

/-- Anything `pyGet` returns is an element of the list. -/
theorem pyGet_mem {l : List Int} {k : Int} {v : Int} (h : pyGet l k = some v) : v ∈ l := by
  unfold pyGet at h
  split at h
  · exact List.get?_mem h
  · split at h
    · exact List.get?_mem h
    · exact absurd h (by simp)

/-! ### Navigation graph (`Plot.fill_graph`, `Plot.compute_roads`,
occupancy blocking in `Plot.get_subplot`) -/

/-- Undirected weighted graph over surface coordinates.  `networkx.Graph`
stores one weight per undirected edge; the embedding keeps `edge` and
`weight` symmetric by construction. -/
structure NavGraph where
  node : Coordinates → Bool
  edge : Coordinates → Coordinates → Bool
  weight : Coordinates → Coordinates → Int

/-- Modelled from the spec: 4-connected neighbourhood in the xz-plane
(`Coordinates.neighbours`; §4.3 "an edge between every pair of
4-connected neighbors both present as nodes"). -/
def adjacent2D (a b : Coordinates) : Bool :=
  ((a.x - b.x).natAbs = 1 && a.z = b.z) || (a.x = b.x && (a.z - b.z).natAbs = 1)

/-- The clamped malus of `Plot.fill_graph`:
`if malus > 20: malus = min(malus * 100, 100_000)`. -/
def clampMalus (m : Int) : Int :=
  if m > 20 then min (m * 100) 100000 else m

/-- `self.get_steep_map_value(coord)` as used by `fill_graph`; for plot
sizes of at least 5×5 the clamped lookup always succeeds on plot columns,
so the default is never read there. -/
def steepAtD (t : Terrain) (p : Plot) (c : Coordinates) : Int :=
  (get_steep_map_value t p c).getD 0

/-- Whether `a` comes before `b` in the insertion order of the graph's
nodes (the x-major, z-minor scan of `Plot.get_blocks`). -/
def scanBefore (a b : Coordinates) : Bool :=
  a.x < b.x || (a.x = b.x && a.z < b.z)

/-- `Plot.fill_graph`: nodes are the surface blocks of the plot, edges join
4-connected surface neighbours, the weight is `100 + malus * 10`.  Both
orientations of an edge are written by the node loop (`add_edge`
overwrites), so the surviving weight is the one written while visiting the
later node, whose malus is evaluated at the earlier node of the scan. -/
def fill_graph (t : Terrain) (p : Plot) : NavGraph where
  node c := inPlot2D p c.x c.z && decide (c = surfaceCoord t c.x c.z)
  edge a b := (inPlot2D p a.x a.z && decide (a = surfaceCoord t a.x a.z)) &&
    (inPlot2D p b.x b.z && decide (b = surfaceCoord t b.x b.z)) && adjacent2D a b
  weight a b := 100 + clampMalus (steepAtD t p (if scanBefore a b then a else b)) * 10

/-- Occupancy blocking in `Plot.get_subplot`: every edge incident to the
blocked surface coordinate is rewritten with weight `100_000_000`. -/
def blockNode (g : NavGraph) (c : Coordinates) : NavGraph where
  node := g.node
  edge := g.edge
  weight a b :=
    if g.edge a b && (decide (a = c) || decide (b = c)) then 100000000 else g.weight a b

/-- Iterated blocking, as done for all coordinates of a selected footprint. -/
def blockCells (g : NavGraph) (cells : List Coordinates) : NavGraph :=
  cells.foldl blockNode g

/-- One road reinforcement: `self.graph[c1][c2]['weight'] = 10` guarded by
`has_edge`. -/
def reinforceEdge (g : NavGraph) (c1 c2 : Coordinates) : NavGraph :=
  if g.edge c1 c2 then
    { g with weight := fun a b =>
        if (a = c1 ∧ b = c2) ∨ (a = c2 ∧ b = c1) then 10 else g.weight a b }
  else g

/-- The reinforcement loop of `Plot.compute_roads`:
`for c1, c2 in zip(path[:-2], path[1:])`. -/
def reinforcePath (g : NavGraph) (path : List Coordinates) : NavGraph :=
  (List.zip (path.take (path.length - 2)) (path.drop 1)).foldl
    (fun g' pr => reinforceEdge g' pr.1 pr.2) g

/-- A walk through the graph from `s` to `t`: nonempty, consecutive
elements joined by edges, and simple (no repeated node). -/
def ValidPath (g : NavGraph) (s t : Coordinates) (q : List Coordinates) : Prop :=
  q.head? = some s ∧ q.getLast? = some t ∧
    q.Chain' (fun a b => g.edge a b = true) ∧ q.Nodup

/-- Total weight of a walk: the sum of consecutive edge weights. -/
def pathWeight (g : NavGraph) : List Coordinates → Int
  | a :: b :: rest => g.weight a b + pathWeight g (b :: rest)
  | _ => 0

/-- Modelled from the spec: `nx.dijkstra_path` (an external library call)
returns a minimum-weight simple path between its endpoints (§4.3
"single-source shortest path using non-negative edge weights"). -/
def IsDijkstraPath (g : NavGraph) (s t : Coordinates) (p : List Coordinates) : Prop :=
  ValidPath g s t p ∧ ∀ q, ValidPath g s t q → pathWeight g p ≤ pathWeight g q

/-- The graph states reachable by the program: `fill_graph` followed by
any sequence of successful `compute_roads` reinforcements and
`get_subplot` occupancy blockings. -/
inductive GraphReachable (t : Terrain) (p : Plot) : NavGraph → Prop where
  | init : GraphReachable t p (fill_graph t p)
  | roads {g} (s e : Coordinates) (path : List Coordinates) :
      GraphReachable t p g → IsDijkstraPath g s e path →
      GraphReachable t p (reinforcePath g path)
  | occupy {g} (c : Coordinates) :
      GraphReachable t p g → GraphReachable t p (blockNode g c)

@[simp] theorem blockNode_edge (g : NavGraph) (c : Coordinates) :
    (blockNode g c).edge = g.edge := rfl

@[simp] theorem reinforceEdge_edge (g : NavGraph) (c1 c2 : Coordinates) :
    (reinforceEdge g c1 c2).edge = g.edge := by
  unfold reinforceEdge; split <;> rfl

theorem reinforcePath_edge (g : NavGraph) (path : List Coordinates) :
    (reinforcePath g path).edge = g.edge := by
  unfold reinforcePath
  generalize (List.zip (path.take (path.length - 2)) (path.drop 1)) = l
  induction l generalizing g with
  | nil => rfl
  | cons pr rest ih => rw [List.foldl_cons, ih, reinforceEdge_edge]

/-- The steepness lookup used by `fill_graph` is nonnegative. -/
theorem steepAtD_nonneg (t : Terrain) (p : Plot) (c : Coordinates) :
    0 ≤ steepAtD t p c := by
  unfold steepAtD
  cases hv : get_steep_map_value t p c with
  | none => simp
  | some v =>
    simp only [Option.getD_some]
    obtain ⟨a, b, rfl⟩ := steep_map_mem t p (pyGet_mem hv)
    exact steepValue_nonneg t p _ _

theorem clampMalus_nonneg {m : Int} (hm : 0 ≤ m) : 0 ≤ clampMalus m := by
  unfold clampMalus
  split
  · exact le_min (by nlinarith) (by norm_num)
  · exact hm

/-- Every `fill_graph` weight is at least the base constant `100`. -/
theorem fill_graph_weight_ge (t : Terrain) (p : Plot) (a b : Coordinates) :
    100 ≤ (fill_graph t p).weight a b := by
  show (100 : Int) ≤ 100 + clampMalus (steepAtD t p (if scanBefore a b then a else b)) * 10
  have h1 : 0 ≤ steepAtD t p (if scanBefore a b then a else b) := steepAtD_nonneg _ _ _
  have h2 := clampMalus_nonneg h1
  linarith

/-! ### A concrete flat 5×5 world, used by several counterexamples -/

/-- A perfectly flat stone terrain of uniform height 64. -/
def tFlat : Terrain := ⟨fun _ _ => 64, fun _ => "stone"⟩

/-- A 5×5 plot at the world origin (the smallest size whose steepness
field is nonempty). -/
def pFlat : Plot := ⟨⟨0, 0, 0⟩, ⟨5, 5⟩⟩

/-- Three consecutive surface cells of the flat plot along the z axis. -/
def cellA : Coordinates := ⟨0, 63, 0⟩

def cellB : Coordinates := ⟨0, 63, 1⟩

def cellC : Coordinates := ⟨0, 63, 2⟩

theorem steep_map_flat : steep_map tFlat pFlat = [0] := by decide

/-- On the flat 5×5 plot the steepness lookup returns 0 everywhere: the
1×1 steepness grid forces both clamped indices to 0. -/
theorem steepAtD_flat (c : Coordinates) : steepAtD tFlat pFlat c = 0 := by
  unfold steepAtD get_steep_map_value
  rw [steep_map_flat]
  have hx : clampedSteepIndex pFlat.start.x c.x ((pFlat.size.x : Int) - 2 * 2) = 0 := by
    show min (max (c.x - 0 - 2) 0) (((5 : Nat) : Int) - 2 * 2 - 1) = 0
    omega
  have hz : clampedSteepIndex pFlat.start.z c.z ((pFlat.size.z : Int) - 2 * 2) = 0 := by
    show min (max (c.z - 0 - 2) 0) (((5 : Nat) : Int) - 2 * 2 - 1) = 0
    omega
  rw [hx, hz]
  decide

/-- Every edge of the flat graph costs exactly the base constant. -/
theorem fill_graph_weight_flat (a b : Coordinates) :
    (fill_graph tFlat pFlat).weight a b = 100 := by
  show 100 + clampMalus (steepAtD tFlat pFlat (if scanBefore a b then a else b)) * 10 = 100
  rw [steepAtD_flat]
  decide

/-- Walks in a graph whose weights all equal `w` cost `w` per step. -/
theorem pathWeight_const (g : NavGraph) (w : Int) (hw : ∀ a b, g.weight a b = w) :
    ∀ q : List Coordinates, pathWeight g q = w * ((q.length - 1 : Nat) : Int)
  | [] => by simp [pathWeight]
  | [a] => by simp [pathWeight]
  | a :: b :: rest => by
    have ih := pathWeight_const g w hw (b :: rest)
    show g.weight a b + pathWeight g (b :: rest) = _
    rw [hw, ih]
    simp only [List.length_cons]
    push_cast
    ring

/-- Walks whose edges all cost at least `w ≥ 0` cost at least `w` per step. -/
theorem pathWeight_ge (g : NavGraph) (w : Int) (hw0 : 0 ≤ w)
    (hw : ∀ a b, g.edge a b = true → w ≤ g.weight a b) :
    ∀ q : List Coordinates, q.Chain' (fun a b => g.edge a b = true) →
      w * ((q.length - 1 : Nat) : Int) ≤ pathWeight g q
  | [], _ => by simp [pathWeight]
  | [a], _ => by simp [pathWeight]
  | a :: b :: rest, hchain => by
    rw [List.chain'_cons] at hchain
    have ih := pathWeight_ge g w hw0 hw (b :: rest) hchain.2
    have hab := hw a b hchain.1
    show w * _ ≤ g.weight a b + pathWeight g (b :: rest)
    have hlen : (((a :: b :: rest).length - 1 : Nat) : Int)
        = (((b :: rest).length - 1 : Nat) : Int) + 1 := by
      simp only [List.length_cons]
      push_cast
      ring
    rw [hlen]
    linarith

/-- Along a chain whose edges change the z coordinate by at most one, the
endpoints' z offset is bounded by the number of steps. -/
theorem chain_z_bound (g : NavGraph)
    (hz : ∀ a b, g.edge a b = true → (b.z - a.z).natAbs ≤ 1) :
    ∀ (q : List Coordinates) (s t' : Coordinates), ValidPath g s t' q →
      (t'.z - s.z).natAbs ≤ q.length - 1
  | [], s, t', h => by simp [ValidPath] at h
  | [a], s, t', h => by
    obtain ⟨h1, h2, _, _⟩ := h
    simp only [List.head?_cons, Option.some_inj] at h1
    simp only [List.getLast?_singleton, Option.some_inj] at h2
    subst h1; subst h2
    simp
  | a :: b :: rest, s, t', h => by
    obtain ⟨h1, h2, hchain, hnd⟩ := h
    simp only [List.head?_cons, Option.some_inj] at h1
    subst h1
    rw [List.chain'_cons] at hchain
    have hstep := hz _ _ hchain.1
    have htail : ValidPath g b t' (b :: rest) := by
      refine ⟨rfl, ?_, hchain.2, (List.nodup_cons.mp hnd).2⟩
      rw [← h2, List.getLast?_cons_cons]
    have ih := chain_z_bound g hz (b :: rest) b t' htail
    simp only [List.length_cons] at ih ⊢
    omega

/-- Edges of `fill_graph` join 4-connected columns, so they change z by at
most one. -/
theorem fill_graph_z_step (t : Terrain) (p : Plot) (a b : Coordinates)
    (h : (fill_graph t p).edge a b = true) : (b.z - a.z).natAbs ≤ 1 := by
  have hadj : adjacent2D a b = true := by
    simp only [fill_graph, Bool.and_eq_true] at h
    exact h.2
  simp only [adjacent2D, Bool.or_eq_true, Bool.and_eq_true, decide_eq_true_eq] at hadj
  omega

/-- On the flat 5×5 graph, the straight three-cell line from `cellA` to
`cellC` is a minimum-weight simple path, hence a possible `dijkstra_path`
result. -/
theorem dijkstra_flat_line :
    IsDijkstraPath (fill_graph tFlat pFlat) cellA cellC [cellA, cellB, cellC] := by
  constructor
  · refine ⟨rfl, rfl, ?_, by decide⟩
    rw [List.chain'_cons, List.chain'_cons]
    exact ⟨by decide, by decide, List.chain'_singleton _⟩
  · intro q hq
    have hlen := chain_z_bound _ (fill_graph_z_step tFlat pFlat) q cellA cellC hq
    have hq' : (cellC.z - cellA.z).natAbs = 2 := by decide
    rw [hq'] at hlen
    have hcost := pathWeight_const (fill_graph tFlat pFlat) 100 fill_graph_weight_flat q
    have hours : pathWeight (fill_graph tFlat pFlat) [cellA, cellB, cellC] = 200 := by
      show (fill_graph tFlat pFlat).weight cellA cellB +
        ((fill_graph tFlat pFlat).weight cellB cellC + 0) = 200
      rw [fill_graph_weight_flat, fill_graph_weight_flat]
      norm_num
    rw [hours, hcost]
    have : (2 : Nat) ≤ q.length - 1 := hlen
    have h2 : (2 : Int) ≤ ((q.length - 1 : Nat) : Int) := by exact_mod_cast this
    nlinarith

/-- Reinforcement can only write the constant 10; any weight lower bound
not exceeding 10 survives the reinforcement loop. -/
theorem reinforcePath_weight_lb (w : Int) (hw : w ≤ 10) :
    ∀ (l : List (Coordinates × Coordinates)) (g : NavGraph),
      (∀ a b, g.edge a b = true → w ≤ g.weight a b) →
      ∀ a b, (l.foldl (fun g' pr => reinforceEdge g' pr.1 pr.2) g).edge a b = true →
        w ≤ (l.foldl (fun g' pr => reinforceEdge g' pr.1 pr.2) g).weight a b
  | [], g, h => h
  | pr :: rest, g, h => by
    rw [List.foldl_cons]
    refine reinforcePath_weight_lb w hw rest (reinforceEdge g pr.1 pr.2) ?_
    intro a b hab
    rw [reinforceEdge_edge] at hab
    unfold reinforceEdge
    split
    · show w ≤ if (a = pr.1 ∧ b = pr.2) ∨ (a = pr.2 ∧ b = pr.1) then 10 else g.weight a b
      split
      · exact hw
      · exact h a b hab
    · exact h a b hab

/-- C3 (amended): in every reachable graph state, every edge weight is at
least the road constant 10 (not the base constant 100: a successful
`compute_roads` lowers the reinforced edges to 10).  Weights are at least
100 after `fill_graph`, occupancy blocking writes 100 000 000, and
reinforcement writes 10. -/
theorem reachable_weights_ge_ten (t : Terrain) (p : Plot) (g : NavGraph)
    (hg : GraphReachable t p g) :
    ∀ a b, g.edge a b = true → 10 ≤ g.weight a b := by
  induction hg with
  | init =>
    intro a b _
    have := fill_graph_weight_ge t p a b
    linarith
  | @roads g' s e path hg hd ih =>
    exact reinforcePath_weight_lb 10 le_rfl _ _ ih
  | @occupy g' c hg ih =>
    intro a b hab
    show 10 ≤ if g'.edge a b && (decide (a = c) || decide (b = c)) then 100000000
      else g'.weight a b
    split
    · norm_num
    · exact ih a b hab

/-- Witness for `reachable_weights_ge_ten`: the freshly built flat graph
has the edge `cellA–cellB`, and its weight is indeed at least 10. -/
theorem reachable_weights_ge_ten_witness :
    (fill_graph tFlat pFlat).edge cellA cellB = true ∧
      10 ≤ (fill_graph tFlat pFlat).weight cellA cellB :=
  ⟨by decide, reachable_weights_ge_ten tFlat pFlat _ GraphReachable.init cellA cellB (by decide)⟩

/-- C3 counterexample: the claimed invariant "every edge weight ≥ 100" is
false.  After `fill_graph` on a flat 5×5 plot and one successful
`compute_roads` along `[cellA, cellB, cellC]`, the reinforced edge
`cellA–cellB` has weight 10 < 100. -/
theorem claim3_counterexample :
    GraphReachable tFlat pFlat (reinforcePath (fill_graph tFlat pFlat) [cellA, cellB, cellC]) ∧
    (reinforcePath (fill_graph tFlat pFlat) [cellA, cellB, cellC]).edge cellA cellB = true ∧
    ¬ 100 ≤ (reinforcePath (fill_graph tFlat pFlat) [cellA, cellB, cellC]).weight cellA cellB := by
  refine ⟨GraphReachable.roads cellA cellC [cellA, cellB, cellC]
    GraphReachable.init dijkstra_flat_line, ?_, ?_⟩
  · rw [reinforcePath_edge]; decide
  · decide

/-- Once an edge weight is 10, the rest of the reinforcement loop keeps it
at 10 (reinforcement only ever writes 10). -/
theorem reinforceFold_keeps_ten :
    ∀ (l : List (Coordinates × Coordinates)) (g : NavGraph) (a b : Coordinates),
      g.weight a b = 10 →
      (l.foldl (fun g' pr => reinforceEdge g' pr.1 pr.2) g).weight a b = 10
  | [], _, _, _, h => h
  | pr :: rest, g, a, b, h => by
    rw [List.foldl_cons]
    refine reinforceFold_keeps_ten rest _ a b ?_
    unfold reinforceEdge
    split
    · show (if (a = pr.1 ∧ b = pr.2) ∨ (a = pr.2 ∧ b = pr.1) then 10 else g.weight a b) = 10
      split
      · rfl
      · exact h
    · exact h

/-- Every pair of the reinforcement loop that is an edge ends up with
weight 10. -/
theorem reinforceFold_sets :
    ∀ (l : List (Coordinates × Coordinates)) (g : NavGraph) (c1 c2 : Coordinates),
      (c1, c2) ∈ l → g.edge c1 c2 = true →
      (l.foldl (fun g' pr => reinforceEdge g' pr.1 pr.2) g).weight c1 c2 = 10
  | [], _, _, _, h, _ => absurd h (List.not_mem_nil _)
  | pr :: rest, g, c1, c2, h, he => by
    rw [List.foldl_cons]
    rcases List.mem_cons.mp h with heq | hmem
    · refine reinforceFold_keeps_ten rest _ c1 c2 ?_
      rw [← heq]
      show (reinforceEdge g c1 c2).weight c1 c2 = 10
      unfold reinforceEdge
      rw [if_pos he]
      show (if (c1 = c1 ∧ c2 = c2) ∨ (c1 = c2 ∧ c2 = c1) then (10 : Int) else g.weight c1 c2) = 10
      rw [if_pos (Or.inl ⟨rfl, rfl⟩)]
    · exact reinforceFold_sets rest _ c1 c2 hmem (by rw [reinforceEdge_edge]; exact he)

/-- Pairs never written by the reinforcement loop keep their weight. -/
theorem reinforceFold_untouched :
    ∀ (l : List (Coordinates × Coordinates)) (g : NavGraph) (a b : Coordinates),
      (∀ pr ∈ l, ¬((a = pr.1 ∧ b = pr.2) ∨ (a = pr.2 ∧ b = pr.1))) →
      (l.foldl (fun g' pr => reinforceEdge g' pr.1 pr.2) g).weight a b = g.weight a b
  | [], _, _, _, _ => rfl
  | pr :: rest, g, a, b, h => by
    rw [List.foldl_cons,
      reinforceFold_untouched rest _ a b (fun q hq => h q (List.mem_cons_of_mem _ hq))]
    unfold reinforceEdge
    split
    · show (if (a = pr.1 ∧ b = pr.2) ∨ (a = pr.2 ∧ b = pr.1) then (10 : Int) else g.weight a b)
        = g.weight a b
      rw [if_neg (h pr (List.mem_cons_self _ _))]
    · rfl

/-- Indexing a list at provably equal indices gives the same element. -/
theorem getElem_idx_eq {α : Type} (l : List α) (i j : Nat) (hij : i = j)
    (hi : i < l.length) : l.get ⟨i, hi⟩ = l.get ⟨j, hij ▸ hi⟩ := by
  subst hij; rfl

/-- The pairs visited by the reinforcement loop of `compute_roads` are
exactly the consecutive pairs of the path except the final one
(`zip(path[:-2], path[1:])`). -/
theorem reinforce_pairs_mem (path : List Coordinates) (i : Nat) (h2 : i + 2 < path.length) :
    (path.get ⟨i, by omega⟩, path.get ⟨i + 1, by omega⟩) ∈
      List.zip (path.take (path.length - 2)) (path.drop 1) := by
  have hlen : (List.zip (path.take (path.length - 2)) (path.drop 1)).length
      = path.length - 2 := by
    simp [List.length_zip]
    omega
  rw [List.mem_iff_getElem]
  refine ⟨i, by omega, ?_⟩
  rw [List.getElem_zip, List.getElem_take, List.getElem_drop]
  simp only [List.get_eq_getElem]
  congr 1
  simpa only [List.get_eq_getElem] using getElem_idx_eq path (1 + i) (i + 1) (by omega) (by omega)

theorem reinforce_pairs_shape (path : List Coordinates) (pr : Coordinates × Coordinates)
    (hpr : pr ∈ List.zip (path.take (path.length - 2)) (path.drop 1)) :
    ∃ k, ∃ _ : k + 2 < path.length,
      pr = (path.get ⟨k, by omega⟩, path.get ⟨k + 1, by omega⟩) := by
  have hlen : (List.zip (path.take (path.length - 2)) (path.drop 1)).length
      = path.length - 2 := by
    simp [List.length_zip]
    omega
  rw [List.mem_iff_getElem] at hpr
  obtain ⟨k, hk, hpr⟩ := hpr
  rw [hlen] at hk
  refine ⟨k, by omega, ?_⟩
  rw [← hpr, List.getElem_zip, List.getElem_take, List.getElem_drop]
  simp only [List.get_eq_getElem]
  congr 1
  simpa only [List.get_eq_getElem] using getElem_idx_eq path (1 + k) (k + 1) (by omega) (by omega)

/-- C4 (amended): after a successful `compute_roads` along `path`, every
consecutive edge of the path **except the final one** is set to the
reinforcement constant 10, while the final consecutive edge keeps the
weight it had before the call (`zip(path[:-2], path[1:])` stops one pair
early; in particular a two-cell path reinforces nothing). -/
theorem reinforce_road_edges (g : NavGraph) (s e : Coordinates) (path : List Coordinates)
    (hd : IsDijkstraPath g s e path) :
    (∀ i, ∀ _ : i + 2 < path.length,
        (reinforcePath g path).weight (path.get ⟨i, by omega⟩) (path.get ⟨i + 1, by omega⟩)
          = 10) ∧
    (∀ _ : 2 ≤ path.length,
        (reinforcePath g path).weight (path.get ⟨path.length - 2, by omega⟩)
            (path.get ⟨path.length - 1, by omega⟩)
          = g.weight (path.get ⟨path.length - 2, by omega⟩)
              (path.get ⟨path.length - 1, by omega⟩)) := by
  obtain ⟨⟨hhead, hlast, hchain, hnodup⟩, _⟩ := hd
  constructor
  · intro i h2
    unfold reinforcePath
    refine reinforceFold_sets _ g _ _ (reinforce_pairs_mem path i h2) ?_
    have := List.chain'_iff_get.mp hchain i (by omega)
    simpa [List.get_eq_getElem] using this
  · intro h2
    unfold reinforcePath
    refine reinforceFold_untouched _ g _ _ ?_
    intro pr hpr
    obtain ⟨k, hk, rfl⟩ := reinforce_pairs_shape path pr hpr
    intro hcon
    rcases hcon with ⟨ha, hb⟩ | ⟨ha, hb⟩
    · have ha2 : path.get ⟨path.length - 2, by omega⟩ = path.get ⟨k, by omega⟩ := ha
      rw [List.Nodup.get_inj_iff hnodup] at ha2
      simp only [Fin.mk.injEq] at ha2
      omega
    · have ha2 : path.get ⟨path.length - 2, by omega⟩ = path.get ⟨k + 1, by omega⟩ := ha
      have hb2 : path.get ⟨path.length - 1, by omega⟩ = path.get ⟨k, by omega⟩ := hb
      rw [List.Nodup.get_inj_iff hnodup] at ha2 hb2
      simp only [Fin.mk.injEq] at ha2 hb2
      omega

/-- Witness for `reinforce_road_edges`: on the flat plot the first edge of
the road `[cellA, cellB, cellC]` is reinforced to 10. -/
theorem reinforce_road_edges_witness :
    (reinforcePath (fill_graph tFlat pFlat) [cellA, cellB, cellC]).weight cellA cellB = 10 :=
  (reinforce_road_edges (fill_graph tFlat pFlat) cellA cellC [cellA, cellB, cellC]
    dijkstra_flat_line).1 0 (by norm_num)

/-- C4 counterexample: the claim says every consecutive edge of the
returned path (indices 0 .. len−2) is lowered to the reinforcement
constant, but the final edge `cellB–cellC` of the successfully planned
road `[cellA, cellB, cellC]` still has its original weight 100, not 10. -/
theorem claim4_counterexample :
    IsDijkstraPath (fill_graph tFlat pFlat) cellA cellC [cellA, cellB, cellC] ∧
    ¬ (reinforcePath (fill_graph tFlat pFlat) [cellA, cellB, cellC]).weight cellB cellC = 10 := by
  refine ⟨dijkstra_flat_line, ?_⟩
  decide

/-- A simple path between distinct endpoints has at least two nodes. -/
theorem valid_length_two (g : NavGraph) (s t' : Coordinates) (q : List Coordinates)
    (h : ValidPath g s t' q) (hst : s ≠ t') : 2 ≤ q.length := by
  match q, h with
  | [], ⟨h1, _, _, _⟩ => simp at h1
  | [a], ⟨h1, h2, _, _⟩ =>
    simp only [List.head?_cons, Option.some_inj] at h1
    simp only [List.getLast?_singleton, Option.some_inj] at h2
    exact absurd (h1.symm.trans h2) hst
  | a :: b :: rest, _ => simp

/-- A walk that passes through a vertex `v` strictly between its endpoints
pays for two edges incident to `v`; if all such edges cost at least `W`
and every traversed edge is nonnegative, the walk costs at least `2·W`. -/
theorem pathWeight_through (g : NavGraph) (v : Coordinates) (W : Int)
    (hnn : ∀ a b, g.edge a b = true → 0 ≤ g.weight a b)
    (hinc : ∀ a b, g.edge a b = true → a = v ∨ b = v → W ≤ g.weight a b) :
    ∀ l : List Coordinates, l.Chain' (fun a b => g.edge a b = true) →
      v ∈ l → l.head? ≠ some v → l.getLast? ≠ some v → W + W ≤ pathWeight g l
  | [], _, hv, _, _ => absurd hv (List.not_mem_nil _)
  | [a], _, hv, hh, _ => by
    rw [List.mem_singleton] at hv
    subst hv
    exact absurd rfl hh
  | a :: b :: rest, hchain, hv, hh, hl => by
    rw [List.chain'_cons] at hchain
    have hav : a ≠ v := fun h => hh (by rw [h]; rfl)
    rcases List.mem_cons.mp hv with h | hv' 
    · exact absurd h.symm hav
    · by_cases hbv : b = v
      · subst hbv
        match rest, hchain, hl with
        | [], _, hl =>
          exact absurd (by rw [List.getLast?_cons_cons]; rfl) hl
        | r :: rest', hchain, hl =>
          have h1 : W ≤ g.weight a b := hinc a b hchain.1 (Or.inr rfl)
          have hchain2 := hchain.2
          rw [List.chain'_cons] at hchain2
          have h2 : W ≤ g.weight b r := hinc b r hchain2.1 (Or.inl rfl)
          have h3 : 0 ≤ pathWeight g (r :: rest') := by
            simpa using pathWeight_ge g 0 le_rfl (fun x y hxy => hnn x y hxy)
              (r :: rest') hchain2.2
          show W + W ≤ g.weight a b + (g.weight b r + pathWeight g (r :: rest'))
          linarith
      · have hvtail : v ∈ b :: rest := hv'
        have ih := pathWeight_through g v W hnn hinc (b :: rest) hchain.2 hvtail
          (by simp only [List.head?_cons, ne_eq, Option.some_inj]
              exact fun h => hbv h)
          (by rw [← List.getLast?_cons_cons]; exact hl)
        have h0 : 0 ≤ g.weight a b := hnn a b hchain.1
        show W + W ≤ g.weight a b + pathWeight g (b :: rest)
        linarith

/-- Discrete intermediate value property: a path whose edges change z by
at most one and that starts at z ≤ K and ends at z ≥ K visits some vertex
with z = K. -/
theorem chain_z_crossing (g : NavGraph)
    (hz : ∀ a b, g.edge a b = true → (b.z - a.z).natAbs ≤ 1) (K : Int) :
    ∀ (l : List Coordinates) (s t' : Coordinates), ValidPath g s t' l →
      s.z ≤ K → K ≤ t'.z → ∃ v ∈ l, v.z = K
  | [], s, t', h, _, _ => by
    obtain ⟨h1, _, _, _⟩ := h
    simp at h1
  | [a], s, t', h, h1, h2 => by
    obtain ⟨ha, hb, _, _⟩ := h
    simp only [List.head?_cons, Option.some_inj] at ha
    simp only [List.getLast?_singleton, Option.some_inj] at hb
    rw [← ha] at h1
    rw [← hb] at h2
    exact ⟨a, List.mem_singleton_self a, by omega⟩
  | a :: b :: rest, s, t', h, h1, h2 => by
    obtain ⟨ha, hb, hchain, hnd⟩ := h
    simp only [List.head?_cons, Option.some_inj] at ha
    rw [← ha] at h1
    by_cases hK : a.z = K
    · exact ⟨a, List.mem_cons_self _ _, hK⟩
    · rw [List.chain'_cons] at hchain
      have hstep := hz _ _ hchain.1
      rw [List.getLast?_cons_cons] at hb
      have htail : ValidPath g b t' (b :: rest) :=
        ⟨rfl, hb, hchain.2, (List.nodup_cons.mp hnd).2⟩
      have hbz : b.z ≤ K := by omega
      obtain ⟨v, hv, hvz⟩ := chain_z_crossing g hz K (b :: rest) b t' htail hbz h2
      exact ⟨v, List.mem_cons_of_mem _ hv, hvz⟩

theorem blockCells_edge :
    ∀ (l : List Coordinates) (g : NavGraph), (blockCells g l).edge = g.edge
  | [], _ => rfl
  | c :: rest, g => by
    show (blockCells (blockNode g c) rest).edge = g.edge
    rw [blockCells_edge rest]
    rfl

/-- A weight already at the blocking sentinel stays there under further
blocking. -/
theorem blockCells_keeps :
    ∀ (l : List Coordinates) (g : NavGraph) (a b : Coordinates),
      g.weight a b = 100000000 → (blockCells g l).weight a b = 100000000
  | [], _, _, _, h => h
  | c :: rest, g, a, b, h => by
    show (blockCells (blockNode g c) rest).weight a b = 100000000
    refine blockCells_keeps rest _ a b ?_
    show (if g.edge a b && (decide (a = c) || decide (b = c)) then 100000000 else g.weight a b)
      = 100000000
    split
    · rfl
    · exact h

/-- Blocking a list of coordinates drives every edge incident to any of
them to the sentinel weight. -/
theorem blockCells_blocked :
    ∀ (l : List Coordinates) (g : NavGraph) (a b c : Coordinates),
      c ∈ l → g.edge a b = true → a = c ∨ b = c →
      (blockCells g l).weight a b = 100000000
  | [], _, _, _, _, hmem, _, _ => absurd hmem (List.not_mem_nil _)
  | c0 :: rest, g, a, b, c, hmem, he, hab => by
    show (blockCells (blockNode g c0) rest).weight a b = 100000000
    rcases List.mem_cons.mp hmem with rfl | hmem'
    · refine blockCells_keeps rest _ a b ?_
      show (if g.edge a b && (decide (a = c) || decide (b = c)) then 100000000 else g.weight a b)
        = 100000000
      rcases hab with rfl | rfl
      · simp [he]
      · simp [he]
    · exact blockCells_blocked rest _ a b c hmem' he hab

/-- Blocking preserves any edge-weight lower bound below the sentinel. -/
theorem blockCells_weight_lb (w : Int) (hw : w ≤ 100000000) :
    ∀ (l : List Coordinates) (g : NavGraph),
      (∀ a b, g.edge a b = true → w ≤ g.weight a b) →
      ∀ a b, (blockCells g l).edge a b = true → w ≤ (blockCells g l).weight a b
  | [], _, h => h
  | c :: rest, g, h => by
    show ∀ a b, (blockCells (blockNode g c) rest).edge a b = true →
      w ≤ (blockCells (blockNode g c) rest).weight a b
    refine blockCells_weight_lb w hw rest _ ?_
    intro a b hab
    show w ≤ if g.edge a b && (decide (a = c) || decide (b = c)) then 100000000 else g.weight a b
    split
    · exact hw
    · exact h a b hab

/-- Any amount of occupancy blocking keeps a graph reachable. -/
theorem reachable_blockCells (t : Terrain) (p : Plot) :
    ∀ (l : List Coordinates) (g : NavGraph), GraphReachable t p g →
      GraphReachable t p (blockCells g l)
  | [], _, h => h
  | c :: rest, g, h => by
    show GraphReachable t p (blockCells (blockNode g c) rest)
    exact reachable_blockCells t p rest _ (GraphReachable.occupy c h)

/-- C2 (amended): blocking replaces incident weights by the large but
*finite* sentinel `100_000_000`, so a later `dijkstra_path` avoids the
blocked coordinate `c` provided routing through `c` is not forced: if
neither endpoint is `c` and some simple path between the endpoints avoids
`c` at a total cost below twice the sentinel, then no minimum-weight path
passes through `c`. -/
theorem blocked_node_avoided (g : NavGraph) (c s t' : Coordinates)
    (hw : ∀ a b, g.edge a b = true → 0 ≤ g.weight a b)
    (hs : s ≠ c) (ht : t' ≠ c)
    (q : List Coordinates) (hq : ValidPath (blockNode g c) s t' q) (hqc : c ∉ q)
    (hqw : pathWeight (blockNode g c) q < 200000000)
    (p : List Coordinates) (hp : IsDijkstraPath (blockNode g c) s t' p) : c ∉ p := by
  intro hc
  obtain ⟨⟨hhead, hlast, hchain, hnd⟩, hmin⟩ := hp
  have hnn : ∀ a b, (blockNode g c).edge a b = true → 0 ≤ (blockNode g c).weight a b := by
    intro a b hab
    show 0 ≤ if g.edge a b && (decide (a = c) || decide (b = c)) then 100000000
      else g.weight a b
    split
    · norm_num
    · exact hw a b hab
  have hinc : ∀ a b, (blockNode g c).edge a b = true → a = c ∨ b = c →
      (100000000 : Int) ≤ (blockNode g c).weight a b := by
    intro a b hab hor
    show (100000000 : Int) ≤ if g.edge a b && (decide (a = c) || decide (b = c)) then 100000000
      else g.weight a b
    have hge : g.edge a b = true := hab
    have hcond : (g.edge a b && (decide (a = c) || decide (b = c))) = true := by
      rcases hor with rfl | rfl <;> simp [hge]
    rw [if_pos hcond]
  have hthrough := pathWeight_through (blockNode g c) c 100000000 hnn hinc p hchain hc
    (by rw [hhead]; exact fun h => hs (Option.some_inj.mp h))
    (by rw [hlast]; exact fun h => ht (Option.some_inj.mp h))
  have hle := hmin q hq
  linarith

/-- A small graph used to instantiate `blocked_node_avoided`: a triangle
on `cellA`, `cellB`, `cellC` in which every weight is 100. -/
def gTriangle : NavGraph where
  node _ := true
  edge a b :=
    (decide (a = cellA) && decide (b = cellB)) || (decide (a = cellB) && decide (b = cellA)) ||
    (decide (a = cellA) && decide (b = cellC)) || (decide (a = cellC) && decide (b = cellA)) ||
    (decide (a = cellB) && decide (b = cellC)) || (decide (a = cellC) && decide (b = cellB))
  weight _ _ := 100

/-- Witness for `blocked_node_avoided`: in the triangle with `cellC`
blocked, the direct edge `[cellA, cellB]` is a cheap avoiding path, and
the minimum-weight path `[cellA, cellB]` indeed avoids `cellC`. -/
theorem blocked_node_avoided_witness : cellC ∉ ([cellA, cellB] : List Coordinates) := by
  have hvalid : ValidPath (blockNode gTriangle cellC) cellA cellB [cellA, cellB] :=
    ⟨rfl, rfl, by rw [List.chain'_pair]; decide, by decide⟩
  have hlb : ∀ a b, (blockNode gTriangle cellC).edge a b = true →
      (100 : Int) ≤ (blockNode gTriangle cellC).weight a b := by
    intro a b _
    show (100 : Int) ≤ if gTriangle.edge a b && (decide (a = cellC) || decide (b = cellC))
      then 100000000 else gTriangle.weight a b
    split
    · norm_num
    · exact le_refl 100
  refine blocked_node_avoided gTriangle cellC cellA cellB
    (fun a b _ => by norm_num [gTriangle]) (by decide) (by decide)
    [cellA, cellB] hvalid (by decide) (by decide) [cellA, cellB] ⟨hvalid, ?_⟩
  intro q hq
  have hlen := valid_length_two _ _ _ q hq (by decide)
  have hge := pathWeight_ge (blockNode gTriangle cellC) 100 (by norm_num) hlb q hq.2.2.1
  have hour : pathWeight (blockNode gTriangle cellC) [cellA, cellB] = 100 := by decide
  rw [hour]
  have hone : (1 : Int) ≤ ((q.length - 1 : Nat) : Int) := by
    have : 1 ≤ q.length - 1 := by omega
    exact_mod_cast this
  nlinarith

/-- The five surface cells of the flat plot's row z = 2 — the footprint of
a 5×1 sub-plot selected by `get_subplot`, all blocked when it is occupied. -/
def rowCells : List Coordinates :=
  [⟨0, 63, 2⟩, ⟨1, 63, 2⟩, ⟨2, 63, 2⟩, ⟨3, 63, 2⟩, ⟨4, 63, 2⟩]

/-- The surface cell of the flat plot at z = 3. -/
def cellD : Coordinates := ⟨0, 63, 3⟩

/-- Any node of the flat graph lying at z = 2 is one of the five blocked
row cells. -/
theorem flat_node_z2_mem (v : Coordinates)
    (h1 : inPlot2D pFlat v.x v.z = true) (h2 : v = surfaceCoord tFlat v.x v.z)
    (hz2 : v.z = 2) : v ∈ rowCells := by
  simp only [inPlot2D, Bool.and_eq_true, decide_eq_true_eq] at h1
  have hy : v.y = 63 := by rw [h2]; rfl
  have hx0 : (0 : Int) ≤ v.x := h1.1.1.1
  have hx5 : v.x < (5 : Int) := h1.1.1.2
  have hx : v.x = 0 ∨ v.x = 1 ∨ v.x = 2 ∨ v.x = 3 ∨ v.x = 4 := by omega
  obtain ⟨xx, yy, zz⟩ := v
  dsimp only at hy hz2 hx
  subst hy
  subst hz2
  rcases hx with h | h | h | h | h <;> subst h <;> decide

/-- C2 counterexample: blocking is not removal.  After `get_subplot`
occupies the footprint `rowCells` (the whole row z = 2 of the flat plot),
the graph is a reachable state in which every route from `cellB` (z = 1)
to `cellD` (z = 3) must still cross the blocked row, and the shortest path
returned by dijkstra, `[cellB, cellC, cellD]`, passes through the blocked
coordinate `cellC` — contradicting "no path subsequently returned by
shortest_path passes through c". -/
theorem claim2_counterexample :
    GraphReachable tFlat pFlat (blockCells (fill_graph tFlat pFlat) rowCells) ∧
    cellC ∈ rowCells ∧
    IsDijkstraPath (blockCells (fill_graph tFlat pFlat) rowCells) cellB cellD
      [cellB, cellC, cellD] ∧
    cellC ∈ ([cellB, cellC, cellD] : List Coordinates) := by
  refine ⟨reachable_blockCells tFlat pFlat rowCells _ GraphReachable.init, by decide,
    ⟨?_, ?_⟩, by decide⟩
  · refine ⟨rfl, rfl, ?_, by decide⟩
    rw [List.chain'_cons, List.chain'_pair, blockCells_edge]
    exact ⟨by decide, by decide⟩
  · intro q hq
    -- the exhibited path costs exactly two sentinels
    have hBC : (blockCells (fill_graph tFlat pFlat) rowCells).weight cellB cellC
        = 100000000 :=
      blockCells_blocked rowCells _ cellB cellC cellC (by decide) (by decide) (Or.inr rfl)
    have hCD : (blockCells (fill_graph tFlat pFlat) rowCells).weight cellC cellD
        = 100000000 :=
      blockCells_blocked rowCells _ cellC cellD cellC (by decide) (by decide) (Or.inl rfl)
    have hour : pathWeight (blockCells (fill_graph tFlat pFlat) rowCells)
        [cellB, cellC, cellD] = 200000000 := by
      show _ + (_ + 0) = (200000000 : Int)
      rw [hBC, hCD]
      norm_num
    -- every valid path must visit the blocked row and pay two sentinels
    have hz : ∀ a b, (blockCells (fill_graph tFlat pFlat) rowCells).edge a b = true →
        (b.z - a.z).natAbs ≤ 1 := by
      intro a b hab
      rw [blockCells_edge] at hab
      exact fill_graph_z_step tFlat pFlat a b hab
    obtain ⟨v, hv, hvz⟩ := chain_z_crossing _ hz 2 q cellB cellD hq (by decide) (by decide)
    have hnn : ∀ a b, (blockCells (fill_graph tFlat pFlat) rowCells).edge a b = true →
        0 ≤ (blockCells (fill_graph tFlat pFlat) rowCells).weight a b := by
      intro a b hab
      have h100 := blockCells_weight_lb 100 (by norm_num) rowCells (fill_graph tFlat pFlat)
        (fun a b _ => fill_graph_weight_ge tFlat pFlat a b) a b hab
      linarith
    have hinc : ∀ a b, (blockCells (fill_graph tFlat pFlat) rowCells).edge a b = true →
        a = v ∨ b = v →
        (100000000 : Int) ≤ (blockCells (fill_graph tFlat pFlat) rowCells).weight a b := by
      intro a b hab hor
      rw [blockCells_edge] at hab
      have hfill := hab
      simp only [fill_graph, Bool.and_eq_true, decide_eq_true_eq] at hfill
      have hvmem : v ∈ rowCells := by
        rcases hor with rfl | rfl
        · exact flat_node_z2_mem a hfill.1.1.1 hfill.1.1.2 hvz
        · exact flat_node_z2_mem b hfill.1.2.1 hfill.1.2.2 hvz
      rcases hor with rfl | rfl
      · rw [blockCells_blocked rowCells _ _ _ _ hvmem hab (Or.inl rfl)]
      · rw [blockCells_blocked rowCells _ _ _ _ hvmem hab (Or.inr rfl)]
    have hhead : q.head? ≠ some v := by
      rw [hq.1]
      intro h
      have : cellB = v := Option.some_inj.mp h
      rw [← this] at hvz
      exact absurd hvz (by decide)
    have hlast : q.getLast? ≠ some v := by
      rw [hq.2.1]
      intro h
      have : cellD = v := Option.some_inj.mp h
      rw [← this] at hvz
      exact absurd hvz (by decide)
    have := pathWeight_through _ v 100000000 hnn hinc q hq.2.2.1 hv hhead hlast
    rw [hour]
    linarith

/-- Indexing a row-major flattening: entry `a * n + b` of the flattened
`m × n` table is the table entry at row `a`, column `b`. -/
theorem flatten_map_get {α : Type} :
    ∀ (a : Nat) (f : Nat → Nat → α) (m n b : Nat), a < m → b < n →
      (((List.range m).map fun i => (List.range n).map fun j => f i j).flatten).get?
          (a * n + b)
        = some (f a b)
  | 0, f, m, n, b, ha, hb => by
    match m, ha with
    | m' + 1, _ =>
      rw [List.range_succ_eq_map]
      simp only [List.map_cons, List.flatten_cons]
      rw [List.get?_eq_getElem?, List.getElem?_append_left (by simpa using hb)]
      simp [hb]
  | a + 1, f, m, n, b, ha, hb => by
    match m, ha with
    | m' + 1, ha =>
      rw [List.range_succ_eq_map]
      simp only [List.map_cons, List.flatten_cons, List.map_map]
      rw [List.get?_eq_getElem?,
        List.getElem?_append_right (by simp [Nat.succ_mul]; omega)]
      have hrw : (a + 1) * n + b - ((List.range n).map fun j => f 0 j).length
          = a * n + b := by
        simp [Nat.succ_mul]
        omega
      rw [hrw]
      have ih := flatten_map_get a (fun i j => f (i + 1) j) m' n b (by omega) hb
      rw [List.get?_eq_getElem?] at ih
      have hcomp : ((fun i => (List.range n).map fun j => f i j) ∘ Nat.succ)
          = fun i => (List.range n).map fun j => f (i + 1) j := by
        funext i
        simp [Function.comp, Nat.succ_eq_add_one]
      rw [hcomp]
      exact ih

/-- The flattened steepness field read back at `a * (size.z - 2·span) + b`
is the steepness score of interior cell `(2 + a, 2 + b)`. -/
theorem steep_map_get (t : Terrain) (p : Plot) (a b : Nat)
    (ha : a < p.size.x - 4) (hb : b < p.size.z - 4) :
    (steep_map t p).get? (a * (p.size.z - 4) + b)
      = some (steepValue t p (2 + a) (2 + b)) := by
  unfold steep_map
  exact flatten_map_get a (fun i j => steepValue t p (2 + i) (2 + j)) _ _ b ha hb

/-- A terrain whose height depends quadratically on z, so that adjacent
steepness cells carry distinct scores. -/
def tCurve : Terrain := ⟨fun _ Z => Z * Z, fun _ => "stone"⟩

/-- A non-square 5×6 plot: its steepness grid is 1×2. -/
def pRect : Plot := ⟨⟨0, 0, 0⟩, ⟨5, 6⟩⟩

/-- C5 failing input: on the non-square 5×6 plot, flattened steepness
index 1 was produced by interior cell (2, 3) — the field is the two-cell
row-major list `[steepValue 2 2, steepValue 2 3]`, and the two scores are
distinct — yet `flat_heightmap_to_plot_block(1)` divides by
`side_length = size.x - 2·span = 1` instead of `size.z - 2·span = 2` and
returns the surface block of cell (3, 2) instead of cell (2, 3). -/
theorem claim5_code_bug :
    steep_map tCurve pRect = [steepValue tCurve pRect 2 2, steepValue tCurve pRect 2 3] ∧
    steepValue tCurve pRect 2 2 ≠ steepValue tCurve pRect 2 3 ∧
    flat_heightmap_to_plot_block tCurve pRect 1
      = some (surfaceCoord tCurve (pRect.start.x + 3) (pRect.start.z + 2)) ∧
    surfaceCoord tCurve (pRect.start.x + 3) (pRect.start.z + 2)
      ≠ surfaceCoord tCurve (pRect.start.x + 2) (pRect.start.z + 3) := by
  refine ⟨by decide, by decide, by decide, by decide⟩

/-- Converting a nonnegative row-major index to `Nat` distributes over
its row and column parts. -/
theorem toNat_linear (I J S : Int) (N : Nat) (hI : 0 ≤ I) (hJ : 0 ≤ J)
    (hS : S = (N : Int)) : (J + I * S).toNat = I.toNat * N + J.toNat := by
  have h1 : I * S = ((I.toNat * N : Nat) : Int) := by
    rw [hS]
    push_cast
    rw [Int.toNat_of_nonneg hI]
  omega

/-- C10: for every plot of size at least 5×5 and every coordinate whose
column lies inside the plot — including the inset border with no
steepness entry of its own — `get_steep_map_value` succeeds and returns
the steepness score of the clamped (nearest interior) cell; in particular
`fill_graph` can weight every border edge. -/
theorem steep_lookup_clamped (t : Terrain) (p : Plot) (c : Coordinates)
    (hsx : 5 ≤ p.size.x) (hsz : 5 ≤ p.size.z)
    (hx : p.start.x ≤ c.x ∧ c.x < p.start.x + p.size.x)
    (hz : p.start.z ≤ c.z ∧ c.z < p.start.z + p.size.z) :
    ∃ i j : Nat, i < p.size.x - 4 ∧ j < p.size.z - 4 ∧
      (i : Int) = clampedSteepIndex p.start.x c.x ((p.size.x : Int) - 2 * 2) ∧
      (j : Int) = clampedSteepIndex p.start.z c.z ((p.size.z : Int) - 2 * 2) ∧
      get_steep_map_value t p c = some (steepValue t p (2 + (i : Int)) (2 + (j : Int))) := by
  have hxv : 0 ≤ clampedSteepIndex p.start.x c.x ((p.size.x : Int) - 2 * 2) ∧
      clampedSteepIndex p.start.x c.x ((p.size.x : Int) - 2 * 2)
        ≤ (p.size.x : Int) - 2 * 2 - 1 := by
    unfold clampedSteepIndex
    omega
  have hzv : 0 ≤ clampedSteepIndex p.start.z c.z ((p.size.z : Int) - 2 * 2) ∧
      clampedSteepIndex p.start.z c.z ((p.size.z : Int) - 2 * 2)
        ≤ (p.size.z : Int) - 2 * 2 - 1 := by
    unfold clampedSteepIndex
    omega
  have hm : 0 ≤ clampedSteepIndex p.start.x c.x ((p.size.x : Int) - 2 * 2)
      * ((p.size.z : Int) - 2 * 2) := mul_nonneg hxv.1 (by omega)
  refine ⟨(clampedSteepIndex p.start.x c.x ((p.size.x : Int) - 2 * 2)).toNat,
    (clampedSteepIndex p.start.z c.z ((p.size.z : Int) - 2 * 2)).toNat,
    by omega, by omega, by omega, by omega, ?_⟩
  unfold get_steep_map_value pyGet
  rw [if_pos (by omega)]
  rw [toNat_linear (clampedSteepIndex p.start.x c.x ((p.size.x : Int) - 2 * 2))
    (clampedSteepIndex p.start.z c.z ((p.size.z : Int) - 2 * 2))
    ((p.size.z : Int) - 2 * 2) (p.size.z - 4) hxv.1 hzv.1 (by omega)]
  rw [steep_map_get t p _ _ (by omega) (by omega)]

/-- Witness for `steep_lookup_clamped`: the flat plot's corner cell, a
border cell with no steepness entry of its own, still reads the single
interior score 0. -/
theorem steep_lookup_clamped_witness :
    ∃ i j : Nat, i < pFlat.size.x - 4 ∧ j < pFlat.size.z - 4 ∧
      (i : Int) = clampedSteepIndex pFlat.start.x cellA.x ((pFlat.size.x : Int) - 2 * 2) ∧
      (j : Int) = clampedSteepIndex pFlat.start.z cellA.z ((pFlat.size.z : Int) - 2 * 2) ∧
      get_steep_map_value tFlat pFlat cellA
        = some (steepValue tFlat pFlat (2 + (i : Int)) (2 + (j : Int))) :=
  steep_lookup_clamped tFlat pFlat cellA (by decide) (by decide)
    ⟨by decide, by decide⟩ ⟨by decide, by decide⟩

/-! ### Site scoring and selection (`Plot.__get_score`, `Plot.get_subplot`) -/

/-- Result of the footprint-scoring loop of `Plot.__get_score`:
the hard-constraint sentinel return (`return 100_000_000`), the mid-loop
early return (`return score`), or normal completion. -/
inductive ScoreResult where
  | rejected : ScoreResult
  | early : ℚ → ScoreResult
  | full : ℚ → ScoreResult
deriving DecidableEq, Repr

/-- The footprint cells in evaluation order
(`for x in range(size.x): for z in range(size.z)`). -/
def cellList (size : Size) : List (Nat × Nat) :=
  ((List.range size.x).map fun (x : Nat) =>
    (List.range size.z).map fun (z : Nat) => (x, z)).flatten

/-- The per-cell loop of `Plot.__get_score`: look up the surface block of
the shifted cell on the filtered surface (sentinel if absent or occupied),
add the elevation cost — `int(to_add * .8)` for foundations when the
origin is above the ground, `abs(to_add) * 3` for digging — and return
early as soon as the running score reaches `max_score`.  The running score
is a rational: the base term `0.1 × distance` is a float in the source. -/
def scoreLoop (surface : Coordinates → Option Coordinates) (occupied : Coordinates → Bool)
    (coordinates : Coordinates) (maxScore : Int) :
    List (Nat × Nat) → ℚ → ScoreResult
  | [], score => .full score
  | (x, z) :: rest, score =>
    match surface (coordinates.shift x 0 z) with
    | none => .rejected
    | some current_block =>
      if occupied current_block then .rejected
      else
        let to_add : Int := coordinates.y - current_block.y
        let score' : ℚ := if 0 < to_add then score + ((4 * to_add / 5 : Int) : ℚ)
          else score + ((to_add.natAbs * 3 : Int) : ℚ)
        if (maxScore : ℚ) ≤ score' then .early score'
        else scoreLoop surface occupied coordinates maxScore rest score'

/-- `Plot.__get_score`: base distance malus (`base`), the cell loop, and
the building-relation modifier (`score_modif`, always ≥ 0 in the source
since it is a `max(list + [0])`) added only on normal completion. -/
def get_score (surface : Coordinates → Option Coordinates) (occupied : Coordinates → Bool)
    (coordinates : Coordinates) (size : Size) (maxScore : Int)
    (base scoreModif : ℚ) : ℚ :=
  match scoreLoop surface occupied coordinates maxScore (cellList size) base with
  | .rejected => 100000000
  | .early s => s
  | .full s => s + scoreModif

/-- The filtered candidate surface of `get_subplot`:
`surface.without('water').not_inside(self.occupied_coordinates)`, looked
up by column.  Modelled from the spec for the missing `BlockList`
helpers: `without` drops blocks whose name matches, `not_inside` drops
blocks whose 2D projection is occupied. -/
def subplotSurface (t : Terrain) (p : Plot) (occupied : Coordinates → Bool)
    (c : Coordinates) : Option Coordinates :=
  if inPlot2D p c.x c.z && !waterAt t c.x c.z
      && !occupied (surfaceCoord t c.x c.z).as_2D then
    some (surfaceCoord t c.x c.z)
  else none

/-- The minimum-tracking candidate loop of `get_subplot`: starting from
`min_score = max_score` and no best coordinates, each strictly better
score becomes the new minimum. -/
def selectLoop (score : Coordinates → ℚ) :
    List Coordinates → ℚ → Option Coordinates → ℚ × Option Coordinates
  | [], minScore, best => (minScore, best)
  | c :: rest, minScore, best =>
    if score c < minScore then selectLoop score rest (score c) (some c)
    else selectLoop score rest minScore best

/-- The selection core of `Plot.get_subplot`: score every candidate with
`__get_score`, fail if the minimum reached `max_score`, otherwise return
the sub-plot at the best origin.  The distance and relation terms of the
score are the per-candidate parameters `base` and `scoreModif` (floats in
the source); the candidate list abstracts the random 10% sample unioned
with the priority blocks. -/
def get_subplot (t : Terrain) (p : Plot) (occupied : Coordinates → Bool)
    (base scoreModif : Coordinates → ℚ) (candidates : List Coordinates)
    (size : Size) (maxScore : Int) : Option Plot :=
  match selectLoop
      (fun c => get_score (subplotSurface t p occupied) occupied c size maxScore
        (base c) (scoreModif c))
      candidates (maxScore : ℚ) none with
  | (minScore, best) =>
    if (maxScore : ℚ) ≤ minScore then none
    else best.map fun b => { start := b, size := size }

/-- The reference scorer of C8, from the spec's words: identical to
`scoreLoop` but it "always scores every cell of every candidate" — no
mid-loop early return.  `none` is the sentinel case. -/
def scoreLoopFull (surface : Coordinates → Option Coordinates) (occupied : Coordinates → Bool)
    (coordinates : Coordinates) :
    List (Nat × Nat) → ℚ → Option ℚ
  | [], score => some score
  | (x, z) :: rest, score =>
    match surface (coordinates.shift x 0 z) with
    | none => none
    | some current_block =>
      if occupied current_block then none
      else
        let to_add : Int := coordinates.y - current_block.y
        let score' : ℚ := if 0 < to_add then score + ((4 * to_add / 5 : Int) : ℚ)
          else score + ((to_add.natAbs * 3 : Int) : ℚ)
        scoreLoopFull surface occupied coordinates rest score'

/-- `__get_score` with the early exit removed (C8's reference search). -/
def get_score_full (surface : Coordinates → Option Coordinates) (occupied : Coordinates → Bool)
    (coordinates : Coordinates) (size : Size) (base scoreModif : ℚ) : ℚ :=
  match scoreLoopFull surface occupied coordinates (cellList size) base with
  | none => 100000000
  | some s => s + scoreModif

/-- `get_subplot` with the early exit removed (C8's reference search). -/
def get_subplot_full (t : Terrain) (p : Plot) (occupied : Coordinates → Bool)
    (base scoreModif : Coordinates → ℚ) (candidates : List Coordinates)
    (size : Size) (maxScore : Int) : Option Plot :=
  match selectLoop
      (fun c => get_score_full (subplotSurface t p occupied) occupied c size
        (base c) (scoreModif c))
      candidates (maxScore : ℚ) none with
  | (minScore, best) =>
    if (maxScore : ℚ) ≤ minScore then none
    else best.map fun b => { start := b, size := size }

/-- An early return only happens once the running score reached `max_score`. -/
theorem scoreLoop_early_ge (surface : Coordinates → Option Coordinates)
    (occ : Coordinates → Bool) (o : Coordinates) (m : Int) :
    ∀ (cells : List (Nat × Nat)) (s v : ℚ),
      scoreLoop surface occ o m cells s = .early v → (m : ℚ) ≤ v
  | [], s, v, h => by simp [scoreLoop] at h
  | (x, z) :: rest, s, v, h => by
    rw [scoreLoop] at h
    cases hs : surface (o.shift x 0 z) with
    | none => rw [hs] at h; simp at h
    | some cb =>
      rw [hs] at h
      simp only at h
      split at h
      · simp at h
      · generalize (if 0 < o.y - cb.y then s + ((4 * (o.y - cb.y) / 5 : Int) : ℚ)
          else s + (((o.y - cb.y).natAbs * 3 : Int) : ℚ)) = s' at h
        split at h
        · next hge =>
          cases h
          exact hge
        · exact scoreLoop_early_ge surface occ o m rest s' v h

/-- A completed scoring loop found an unoccupied surface block for every
cell it visited. -/
theorem scoreLoop_full_lookups (surface : Coordinates → Option Coordinates)
    (occ : Coordinates → Bool) (o : Coordinates) (m : Int) :
    ∀ (cells : List (Nat × Nat)) (s v : ℚ),
      scoreLoop surface occ o m cells s = .full v →
      ∀ pr ∈ cells, ∃ b, surface (o.shift pr.1 0 pr.2) = some b ∧ occ b = false
  | [], _, _, _ => by simp
  | (x, z) :: rest, s, v, h => by
    rw [scoreLoop] at h
    cases hs : surface (o.shift x 0 z) with
    | none => rw [hs] at h; simp at h
    | some cb =>
      rw [hs] at h
      simp only at h
      split at h
      · simp at h
      · next hocc =>
        generalize (if 0 < o.y - cb.y then s + ((4 * (o.y - cb.y) / 5 : Int) : ℚ)
          else s + (((o.y - cb.y).natAbs * 3 : Int) : ℚ)) = s' at h
        split at h
        · simp at h
        · intro pr hpr
          rcases List.mem_cons.mp hpr with rfl | hmem
          · exact ⟨cb, hs, by simpa using hocc⟩
          · exact scoreLoop_full_lookups surface occ o m rest s' v h pr hmem

/-- A run that completes without early exit computes the same value as the
reference scorer without the early exit. -/
theorem scoreLoop_full_eq (surface : Coordinates → Option Coordinates)
    (occ : Coordinates → Bool) (o : Coordinates) (m : Int) :
    ∀ (cells : List (Nat × Nat)) (s v : ℚ),
      scoreLoop surface occ o m cells s = .full v →
      scoreLoopFull surface occ o cells s = some v
  | [], s, v, h => by
    simp only [scoreLoop, ScoreResult.full.injEq] at h
    simp [scoreLoopFull, h]
  | (x, z) :: rest, s, v, h => by
    rw [scoreLoop] at h
    rw [scoreLoopFull]
    cases hs : surface (o.shift x 0 z) with
    | none => rw [hs] at h; simp at h
    | some cb =>
      rw [hs] at h
      simp only at h
      split at h
      · simp at h
      · next hocc =>
        simp only [hocc, Bool.false_eq_true, if_false]
        generalize (if 0 < o.y - cb.y then s + ((4 * (o.y - cb.y) / 5 : Int) : ℚ)
          else s + (((o.y - cb.y).natAbs * 3 : Int) : ℚ)) = s' at h ⊢
        split at h
        · simp at h
        · exact scoreLoop_full_eq surface occ o m rest s' v h

/-- A run that rejects does so before any early exit, and the reference
scorer rejects at the very same cell. -/
theorem scoreLoop_rejected_eq (surface : Coordinates → Option Coordinates)
    (occ : Coordinates → Bool) (o : Coordinates) (m : Int) :
    ∀ (cells : List (Nat × Nat)) (s : ℚ),
      scoreLoop surface occ o m cells s = .rejected →
      scoreLoopFull surface occ o cells s = none
  | [], s, h => by simp [scoreLoop] at h
  | (x, z) :: rest, s, h => by
    rw [scoreLoop] at h
    rw [scoreLoopFull]
    cases hs : surface (o.shift x 0 z) with
    | none => simp
    | some cb =>
      rw [hs] at h
      simp only at h
      split at h
      · next hocc => simp [hocc]
      · next hocc =>
        simp only [hocc, Bool.false_eq_true, if_false]
        generalize (if 0 < o.y - cb.y then s + ((4 * (o.y - cb.y) / 5 : Int) : ℚ)
          else s + (((o.y - cb.y).natAbs * 3 : Int) : ℚ)) = s' at h ⊢
        split at h
        · simp at h
        · exact scoreLoop_rejected_eq surface occ o m rest s' h

/-- Every per-cell contribution is nonnegative: the running score of the
scorer never decreases. -/
theorem score_step_le (s : ℚ) (d : Int) :
    s ≤ if 0 < d then s + ((4 * d / 5 : Int) : ℚ) else s + ((d.natAbs * 3 : Int) : ℚ) := by
  split
  · next hpos =>
    have h1 : (0 : Int) ≤ 4 * d / 5 := Int.ediv_nonneg (by omega) (by norm_num)
    have h2 : (0 : ℚ) ≤ ((4 * d / 5 : Int) : ℚ) := by exact_mod_cast h1
    linarith
  · have h1 : (0 : Int) ≤ (d.natAbs * 3 : Int) := by positivity
    have h2 : (0 : ℚ) ≤ ((d.natAbs * 3 : Int) : ℚ) := by exact_mod_cast h1
    linarith

/-- The reference scorer never decreases the running score. -/
theorem scoreLoopFull_mono (surface : Coordinates → Option Coordinates)
    (occ : Coordinates → Bool) (o : Coordinates) :
    ∀ (cells : List (Nat × Nat)) (s v : ℚ),
      scoreLoopFull surface occ o cells s = some v → s ≤ v
  | [], s, v, h => by
    simp only [scoreLoopFull, Option.some_inj] at h
    exact le_of_eq h
  | (x, z) :: rest, s, v, h => by
    rw [scoreLoopFull] at h
    cases hs : surface (o.shift x 0 z) with
    | none => rw [hs] at h; simp at h
    | some cb =>
      rw [hs] at h
      simp only at h
      split at h
      · simp at h
      · refine le_trans (score_step_le s (o.y - cb.y)) ?_
        exact scoreLoopFull_mono surface occ o rest _ v h

/-- After an early exit, the reference scorer either rejects later or
ends at least as high as the early value. -/
theorem scoreLoop_early_full (surface : Coordinates → Option Coordinates)
    (occ : Coordinates → Bool) (o : Coordinates) (m : Int) :
    ∀ (cells : List (Nat × Nat)) (s v : ℚ),
      scoreLoop surface occ o m cells s = .early v →
      scoreLoopFull surface occ o cells s = none ∨
        ∃ v', scoreLoopFull surface occ o cells s = some v' ∧ v ≤ v'
  | [], s, v, h => by simp [scoreLoop] at h
  | (x, z) :: rest, s, v, h => by
    rw [scoreLoop] at h
    rw [scoreLoopFull]
    cases hs : surface (o.shift x 0 z) with
    | none => exact Or.inl (by simp)
    | some cb =>
      rw [hs] at h
      simp only at h
      split at h
      · next hocc => exact Or.inl (by simp [hocc])
      · next hocc =>
        simp only [hocc, Bool.false_eq_true, if_false]
        generalize (if 0 < o.y - cb.y then s + ((4 * (o.y - cb.y) / 5 : Int) : ℚ)
          else s + (((o.y - cb.y).natAbs * 3 : Int) : ℚ)) = s' at h ⊢
        split at h
        · cases h
          cases hres : scoreLoopFull surface occ o rest v with
          | none => exact Or.inl rfl
          | some v' =>
            exact Or.inr ⟨v', rfl, scoreLoopFull_mono surface occ o rest v v' hres⟩
        · exact scoreLoop_early_full surface occ o m rest s' v h

@[simp] theorem selectLoop_nil (score : Coordinates → ℚ) (m : ℚ) (best : Option Coordinates) :
    selectLoop score [] m best = (m, best) := rfl

/-- Per candidate, the early-exit scorer agrees with the reference scorer
exactly, or both land at or above `max_score` (assuming `max_score` does
not exceed the rejection sentinel and the relation modifier is
nonnegative). -/
theorem get_score_cases (surface : Coordinates → Option Coordinates)
    (occ : Coordinates → Bool) (o : Coordinates) (size : Size) (m : Int)
    (base modif : ℚ) (hmax : m ≤ 100000000) (hmodif : 0 ≤ modif) :
    get_score surface occ o size m base modif = get_score_full surface occ o size base modif ∨
      ((m : ℚ) ≤ get_score surface occ o size m base modif ∧
       (m : ℚ) ≤ get_score_full surface occ o size base modif) := by
  unfold get_score get_score_full
  have hmq : (m : ℚ) ≤ 100000000 := by exact_mod_cast hmax
  cases hres : scoreLoop surface occ o m (cellList size) base with
  | rejected =>
    rw [scoreLoop_rejected_eq surface occ o m (cellList size) base hres]
    exact Or.inl rfl
  | early v =>
    have hge := scoreLoop_early_ge surface occ o m (cellList size) base v hres
    rcases scoreLoop_early_full surface occ o m (cellList size) base v hres with
      hnone | ⟨v', hsome, hv⟩
    · rw [hnone]
      exact Or.inr ⟨hge, hmq⟩
    · rw [hsome]
      refine Or.inr ⟨hge, ?_⟩
      show (m : ℚ) ≤ v' + modif
      linarith
  | full v =>
    rw [scoreLoop_full_eq surface occ o m (cellList size) base v hres]
    exact Or.inl rfl

/-- If two scorers agree on every candidate scoring below the threshold
(and can only disagree at or above it), the selection loop behaves
identically under both. -/
theorem selectLoop_congr (e f : Coordinates → ℚ) (m0 : ℚ) :
    ∀ (cands : List Coordinates) (m : ℚ) (best : Option Coordinates),
      m ≤ m0 →
      (∀ c ∈ cands, e c = f c ∨ (m0 ≤ e c ∧ m0 ≤ f c)) →
      selectLoop e cands m best = selectLoop f cands m best
  | [], _, _, _, _ => rfl
  | c :: rest, m, best, hm, hall => by
    rw [selectLoop, selectLoop]
    have htail := fun c' hc' => hall c' (List.mem_cons_of_mem _ hc')
    rcases hall c (List.mem_cons_self _ _) with heq | ⟨he, hf⟩
    · rw [← heq]
      split
      · next hlt =>
        exact selectLoop_congr e f m0 rest (e c) (some c)
          (le_trans (le_of_lt hlt) hm) htail
      · exact selectLoop_congr e f m0 rest m best hm htail
    · rw [if_neg (by linarith), if_neg (by linarith)]
      exact selectLoop_congr e f m0 rest m best hm htail

/-- C8 (amended): provided `max_score` does not exceed the rejection
sentinel `100_000_000` (so a rejected candidate can never look better
than the threshold), removing the mid-loop early exit changes neither
which origin `get_subplot` selects nor whether it fails.  Without that
bound the two searches can differ (see the C8 counterexample). -/
theorem early_exit_refines (t : Terrain) (p : Plot) (occupied : Coordinates → Bool)
    (base scoreModif : Coordinates → ℚ) (candidates : List Coordinates)
    (size : Size) (maxScore : Int)
    (hmax : maxScore ≤ 100000000) (hmodif : ∀ c, 0 ≤ scoreModif c) :
    get_subplot t p occupied base scoreModif candidates size maxScore
      = get_subplot_full t p occupied base scoreModif candidates size maxScore := by
  unfold get_subplot get_subplot_full
  rw [selectLoop_congr
    (fun c => get_score (subplotSurface t p occupied) occupied c size maxScore
      (base c) (scoreModif c))
    (fun c => get_score_full (subplotSurface t p occupied) occupied c size
      (base c) (scoreModif c))
    (maxScore : ℚ) candidates (maxScore : ℚ) none le_rfl
    (fun c _ => get_score_cases (subplotSurface t p occupied) occupied c size maxScore
      (base c) (scoreModif c) hmax (hmodif c))]

/-- Witness for `early_exit_refines`: a concrete small search (one
candidate on the flat plot, `max_score = 25`). -/
theorem early_exit_refines_witness :
    get_subplot tFlat pFlat (fun _ => false) (fun _ => 0) (fun _ => 0) [cellA] ⟨1, 1⟩ 25
      = get_subplot_full tFlat pFlat (fun _ => false) (fun _ => 0) (fun _ => 0)
          [cellA] ⟨1, 1⟩ 25 :=
  early_exit_refines tFlat pFlat (fun _ => false) (fun _ => 0) (fun _ => 0) [cellA] ⟨1, 1⟩ 25
    (by norm_num) (fun _ => le_rfl)

/-- An occupancy set containing only the 2D cell (0, 1). -/
def occB : Coordinates → Bool := fun c => decide (c = ⟨0, 0, 1⟩)

/-- C8 counterexample: with `max_score = 200_000_000` above the rejection
sentinel, the pruned and unpruned searches differ.  The single candidate's
distance term alone reaches `max_score`, so the early exit returns at the
first footprint cell and `get_subplot` fails; without the early exit the
loop goes on to the occupied second cell, returns the sentinel
`100_000_000 < max_score`, and the candidate is selected. -/
theorem claim8_counterexample :
    get_subplot tFlat pFlat occB (fun _ => 200000000) (fun _ => 0) [cellA] ⟨1, 2⟩ 200000000
      = none ∧
    get_subplot_full tFlat pFlat occB (fun _ => 200000000) (fun _ => 0)
        [cellA] ⟨1, 2⟩ 200000000
      = some { start := cellA, size := ⟨1, 2⟩ } := by
  have hcells : cellList ⟨1, 2⟩ = [(0, 0), (0, 1)] := by decide
  have hsl : scoreLoop (subplotSurface tFlat pFlat occB) occB cellA 200000000
      [(0, 0), (0, 1)] 200000000 = .early 200000000 := by
    rw [scoreLoop]
    norm_num [Coordinates.shift, cellA]
    rw [show subplotSurface tFlat pFlat occB ⟨0, 63, 0⟩ = some ⟨0, 63, 0⟩ from by decide]
    norm_num [occB]
  have hslf : scoreLoopFull (subplotSurface tFlat pFlat occB) occB cellA
      [(0, 0), (0, 1)] 200000000 = none := by
    rw [scoreLoopFull]
    norm_num [Coordinates.shift, cellA]
    rw [show subplotSurface tFlat pFlat occB ⟨0, 63, 0⟩ = some ⟨0, 63, 0⟩ from by decide]
    norm_num [occB]
    rw [scoreLoopFull]
    norm_num [Coordinates.shift]
    rw [show subplotSurface tFlat pFlat occB ⟨0, 63, 1⟩ = none from by decide]
  have hgs : get_score (subplotSurface tFlat pFlat occB) occB cellA ⟨1, 2⟩ 200000000
      200000000 0 = 200000000 := by
    unfold get_score
    rw [hcells, hsl]
  have hgsf : get_score_full (subplotSurface tFlat pFlat occB) occB cellA ⟨1, 2⟩
      200000000 0 = 100000000 := by
    unfold get_score_full
    rw [hcells, hslf]
  constructor
  · unfold get_subplot
    rw [selectLoop]
    norm_num [hgs]
  · unfold get_subplot_full
    rw [selectLoop]
    norm_num [hgsf]

/-- The selection loop only lowers the running minimum, and whenever it
returns a best candidate, that candidate's score is the final minimum. -/
theorem selectLoop_spec (score : Coordinates → ℚ) :
    ∀ (cands : List Coordinates) (m : ℚ) (best : Option Coordinates),
      (∀ b, best = some b → score b = m) →
      (selectLoop score cands m best).1 ≤ m ∧
        ∀ b, (selectLoop score cands m best).2 = some b →
          score b = (selectLoop score cands m best).1
  | [], m, best, hbest => ⟨le_rfl, fun b hb => hbest b hb⟩
  | c :: rest, m, best, hbest => by
    rw [selectLoop]
    split
    · next hlt =>
      have ih := selectLoop_spec score rest (score c) (some c)
        (fun b hb => by cases hb; rfl)
      exact ⟨le_trans ih.1 (le_of_lt hlt), ih.2⟩
    · exact selectLoop_spec score rest m best hbest

/-- Every in-range footprint cell is visited by the scoring loop. -/
theorem mem_cellList (size : Size) (x z : Nat) (hx : x < size.x) (hz : z < size.z) :
    (x, z) ∈ cellList size := by
  unfold cellList
  rw [List.mem_flatten]
  exact ⟨(List.range size.z).map fun z => (x, z),
    List.mem_map.mpr ⟨x, List.mem_range.mpr hx, rfl⟩,
    List.mem_map.mpr ⟨z, List.mem_range.mpr hz, rfl⟩⟩

/-- C1 (amended): provided `max_score` does not exceed the rejection
sentinel `100_000_000`, every footprint returned by `get_subplot` lies
strictly within the plot's bounds and none of its cells' 2D projections
is in the occupied set at call time.  (With `max_score` above the
sentinel, a rejected candidate can win — see the C1 counterexample.) -/
theorem subplot_within_bounds (t : Terrain) (p : Plot) (occupied : Coordinates → Bool)
    (base scoreModif : Coordinates → ℚ) (candidates : List Coordinates)
    (size : Size) (maxScore : Int) (sub : Plot)
    (hmax : maxScore ≤ 100000000)
    (hsub : get_subplot t p occupied base scoreModif candidates size maxScore = some sub) :
    ∀ x z : Nat, x < size.x → z < size.z →
      inPlot2D p (sub.start.x + x) (sub.start.z + z) = true ∧
      occupied ⟨sub.start.x + x, 0, sub.start.z + z⟩ = false := by
  unfold get_subplot at hsub
  rcases hpair : selectLoop
      (fun c => get_score (subplotSurface t p occupied) occupied c size maxScore
        (base c) (scoreModif c)) candidates (maxScore : ℚ) none with ⟨minS, bestO⟩
  rw [hpair] at hsub
  simp only at hsub
  split at hsub
  · exact absurd hsub (by simp)
  · next hlt =>
    rw [Option.map_eq_some'] at hsub
    obtain ⟨b, h2, rfl⟩ := hsub
    have hspec := selectLoop_spec
      (fun c => get_score (subplotSurface t p occupied) occupied c size maxScore
        (base c) (scoreModif c))
      candidates (maxScore : ℚ) none (fun b hb => by cases hb)
    rw [hpair] at hspec
    simp only at hspec
    have hscore := hspec.2 b h2
    have hblt : get_score (subplotSurface t p occupied) occupied b size maxScore
        (base b) (scoreModif b) < (maxScore : ℚ) := by
      rw [hscore]
      exact lt_of_not_le hlt
    have hmq : (maxScore : ℚ) ≤ 100000000 := by exact_mod_cast hmax
    unfold get_score at hblt
    intro x z hx hz
    cases hres : scoreLoop (subplotSurface t p occupied) occupied b maxScore
        (cellList size) (base b) with
    | rejected =>
      rw [hres] at hblt
      norm_num at hblt
      linarith
    | early v =>
      rw [hres] at hblt
      have := scoreLoop_early_ge (subplotSurface t p occupied) occupied b maxScore
        (cellList size) (base b) v hres
      linarith
    | full v =>
      obtain ⟨cb, hlook, _⟩ := scoreLoop_full_lookups (subplotSurface t p occupied) occupied
        b maxScore (cellList size) (base b) v hres (x, z) (mem_cellList size x z hx hz)
      unfold subplotSurface at hlook
      split at hlook
      · next hcond =>
        simp only [Bool.and_eq_true, Bool.not_eq_true'] at hcond
        refine ⟨?_, ?_⟩
        · have := hcond.1.1
          simpa using this
        · have := hcond.2
          simpa using this
      · exact absurd hlook (by simp)

/-- Witness for `subplot_within_bounds`: a 1×1 footprint selected on the
flat plot with an empty occupancy set. -/
theorem subplot_within_bounds_witness :
    inPlot2D pFlat (({ start := cellA, size := ⟨1, 1⟩ } : Plot).start.x + (0 : Nat))
        (({ start := cellA, size := ⟨1, 1⟩ } : Plot).start.z + (0 : Nat)) = true ∧
    (fun _ => false : Coordinates → Bool)
        ⟨({ start := cellA, size := ⟨1, 1⟩ } : Plot).start.x + (0 : Nat), 0,
          ({ start := cellA, size := ⟨1, 1⟩ } : Plot).start.z + (0 : Nat)⟩ = false := by
  have hcells : cellList ⟨1, 1⟩ = [(0, 0)] := by decide
  have hsl : scoreLoop (subplotSurface tFlat pFlat (fun _ => false)) (fun _ => false)
      cellA 25 [(0, 0)] 0 = .full 0 := by
    rw [scoreLoop]
    norm_num [Coordinates.shift, cellA]
    rw [show subplotSurface tFlat pFlat (fun _ => false) ⟨0, 63, 0⟩ = some ⟨0, 63, 0⟩
      from by decide]
    norm_num [scoreLoop]
  have hgs : get_score (subplotSurface tFlat pFlat (fun _ => false)) (fun _ => false)
      cellA ⟨1, 1⟩ 25 0 0 = 0 := by
    unfold get_score
    rw [hcells, hsl]
    norm_num
  have hsub : get_subplot tFlat pFlat (fun _ => false) (fun _ => 0) (fun _ => 0)
      [cellA] ⟨1, 1⟩ 25 = some { start := cellA, size := ⟨1, 1⟩ } := by
    unfold get_subplot
    rw [selectLoop]
    norm_num [hgs]
  exact subplot_within_bounds tFlat pFlat (fun _ => false) (fun _ => 0) (fun _ => 0)
    [cellA] ⟨1, 1⟩ 25 { start := cellA, size := ⟨1, 1⟩ } (by norm_num) hsub 0 0
    (by norm_num) (by norm_num)

/-- C1 counterexample: with `max_score = 200_000_000` above the rejection
sentinel, `get_subplot` returns a footprint whose second cell's 2D
projection (0, 0, 1) is occupied at call time: the candidate is rejected
with the sentinel score `100_000_000`, but that still beats `max_score`. -/
theorem claim1_counterexample :
    get_subplot tFlat pFlat occB (fun _ => 0) (fun _ => 0) [cellA] ⟨1, 2⟩ 200000000
      = some { start := cellA, size := ⟨1, 2⟩ } ∧
    occB (Coordinates.as_2D ⟨cellA.x + 0, 63, cellA.z + 1⟩) = true := by
  have hcells : cellList ⟨1, 2⟩ = [(0, 0), (0, 1)] := by decide
  have hsl : scoreLoop (subplotSurface tFlat pFlat occB) occB cellA 200000000
      [(0, 0), (0, 1)] 0 = .rejected := by
    rw [scoreLoop]
    norm_num [Coordinates.shift, cellA]
    rw [show subplotSurface tFlat pFlat occB ⟨0, 63, 0⟩ = some ⟨0, 63, 0⟩ from by decide]
    norm_num [occB]
    rw [scoreLoop]
    norm_num [Coordinates.shift]
    rw [show subplotSurface tFlat pFlat occB ⟨0, 63, 1⟩ = none from by decide]
  have hgs : get_score (subplotSurface tFlat pFlat occB) occB cellA ⟨1, 2⟩ 200000000
      0 0 = 100000000 := by
    unfold get_score
    rw [hcells, hsl]
  constructor
  · unfold get_subplot
    rw [selectLoop]
    norm_num [hgs]
  · decide

/-- The per-cell elevation cost update of `__get_score`: a foundation
(`to_add > 0`) adds `int(to_add * .8)`, digging adds `abs(to_add) * 3`. -/
def stepVal (score : ℚ) (to_add : Int) : ℚ :=
  if 0 < to_add then score + ((4 * to_add / 5 : Int) : ℚ)
  else score + ((to_add.natAbs * 3 : Int) : ℚ)

/-- One unfolding step of the scoring loop at a found, unoccupied cell. -/
theorem scoreLoop_cons_step (surface : Coordinates → Option Coordinates)
    (occ : Coordinates → Bool) (o : Coordinates) (m : Int) (x z : Nat)
    (rest : List (Nat × Nat)) (s : ℚ) (b : Coordinates)
    (hlook : surface (o.shift x 0 z) = some b) (hocc : occ b = false) :
    scoreLoop surface occ o m ((x, z) :: rest) s =
      if (m : ℚ) ≤ stepVal s (o.y - b.y) then .early (stepVal s (o.y - b.y))
      else scoreLoop surface occ o m rest (stepVal s (o.y - b.y)) := by
  rw [scoreLoop, hlook]
  simp only [hocc, Bool.false_eq_true, if_false]
  rfl

/-- The number of scored footprint cells. -/
theorem cellList_length (size : Size) : (cellList size).length = size.x * size.z := by
  unfold cellList
  rw [List.length_flatten]
  simp [List.map_map, Function.comp_def]

/-- Lockstep comparison of a raising candidate and a digging candidate
over a flat footprint at ground height `gy`: if the digging run completes
(no early exit), the raising run completes as well, paying
`int(0.8 d)` per cell where digging pays `3 d` per cell. -/
theorem raiseDigLockstep (surface : Coordinates → Option Coordinates)
    (occ : Coordinates → Bool) (m : Int) (ox oz gy d : Int) (hd : 0 < d)
    (hcol : ∀ (c : Coordinates) (w : Int), surface ⟨c.x, w, c.z⟩ = surface c) :
    ∀ (cells : List (Nat × Nat)) (sR sD0 : ℚ), sR ≤ sD0 →
      (∀ pr ∈ cells, ∃ b,
        surface (Coordinates.shift ⟨ox, gy + d, oz⟩ pr.1 0 pr.2) = some b ∧
          b.y = gy ∧ occ b = false) →
      ∀ sD, scoreLoop surface occ ⟨ox, gy - d, oz⟩ m cells sD0 = .full sD →
        scoreLoop surface occ ⟨ox, gy + d, oz⟩ m cells sR
            = .full (sR + cells.length * ((4 * d / 5 : Int) : ℚ)) ∧
          sD = sD0 + cells.length * ((d.natAbs * 3 : Int) : ℚ)
  | [], sR, sD0, hle, hcells, sD, hfull => by
    simp only [scoreLoop, ScoreResult.full.injEq] at hfull
    constructor
    · simp [scoreLoop]
    · simp [← hfull]
  | (x, z) :: rest, sR, sD0, hle, hcells, sD, hfull => by
    obtain ⟨b, hlookR, hby, hocc⟩ := hcells (x, z) (List.mem_cons_self _ _)
    have hlookD : surface (Coordinates.shift ⟨ox, gy - d, oz⟩ x 0 z) = some b := by
      have h1 := hcol (Coordinates.shift ⟨ox, gy + d, oz⟩ x 0 z) (gy - d + 0)
      exact h1.trans hlookR
    have hyD : (⟨ox, gy - d, oz⟩ : Coordinates).y - b.y = -d := by
      rw [hby]
      show gy - d - gy = -d
      ring
    have hyR : (⟨ox, gy + d, oz⟩ : Coordinates).y - b.y = d := by
      rw [hby]
      show gy + d - gy = d
      ring
    have hstepD : stepVal sD0 (-d) = sD0 + ((d.natAbs * 3 : Int) : ℚ) := by
      unfold stepVal
      rw [if_neg (by omega), Int.natAbs_neg]
    have hstepR : stepVal sR d = sR + ((4 * d / 5 : Int) : ℚ) := by
      unfold stepVal
      rw [if_pos hd]
    have hcRcD : ((4 * d / 5 : Int) : ℚ) ≤ ((d.natAbs * 3 : Int) : ℚ) := by
      exact_mod_cast (by omega : 4 * d / 5 ≤ (d.natAbs * 3 : Int))
    rw [scoreLoop_cons_step surface occ _ m x z rest sD0 b hlookD hocc, hyD, hstepD] at hfull
    rw [scoreLoop_cons_step surface occ _ m x z rest sR b hlookR hocc, hyR, hstepR]
    split at hfull
    · exact absurd hfull (by simp)
    · next hmlt =>
      rw [if_neg (by push_neg at hmlt ⊢; linarith)]
      obtain ⟨ih1, ih2⟩ := raiseDigLockstep surface occ m ox oz gy d hd hcol rest
        (sR + ((4 * d / 5 : Int) : ℚ)) (sD0 + ((d.natAbs * 3 : Int) : ℚ))
        (by linarith)
        (fun pr hpr => hcells pr (List.mem_cons_of_mem _ hpr)) sD hfull
      constructor
      · rw [ih1]
        congr 1
        simp only [List.length_cons]
        push_cast
        ring
      · rw [ih2]
        simp only [List.length_cons]
        push_cast
        ring

/-- Column lookups ignore the y coordinate. -/
theorem subplotSurface_column (t : Terrain) (p : Plot) (occ : Coordinates → Bool)
    (c : Coordinates) (w : Int) :
    subplotSurface t p occ ⟨c.x, w, c.z⟩ = subplotSurface t p occ c := rfl

/-- C7 (amended): for two candidate origins identical in every respect
except that one sits `d` above the flat ground of its footprint (raising)
and the other `d` below it (digging), the raising candidate scores
strictly lower **provided the digging candidate's evaluation completes
without the early exit**.  (When the early exit truncates the digging
run, the returned scores can be equal or even reversed — see the C7
counterexample.) -/
theorem raising_scores_lower (t : Terrain) (p : Plot) (occupied : Coordinates → Bool)
    (ox oz gy d : Int) (hd : 0 < d) (size : Size) (hsx : 0 < size.x) (hsz : 0 < size.z)
    (maxScore : Int) (base scoreModif : ℚ)
    (hcells : ∀ pr ∈ cellList size, ∃ b,
        subplotSurface t p occupied (Coordinates.shift ⟨ox, gy + d, oz⟩ pr.1 0 pr.2) = some b
          ∧ b.y = gy ∧ occupied b = false)
    (sD : ℚ)
    (hfull : scoreLoop (subplotSurface t p occupied) occupied ⟨ox, gy - d, oz⟩ maxScore
        (cellList size) base = .full sD) :
    get_score (subplotSurface t p occupied) occupied ⟨ox, gy + d, oz⟩ size maxScore
        base scoreModif
      < get_score (subplotSurface t p occupied) occupied ⟨ox, gy - d, oz⟩ size maxScore
          base scoreModif := by
  obtain ⟨hR, hD⟩ := raiseDigLockstep (subplotSurface t p occupied) occupied maxScore
    ox oz gy d hd (subplotSurface_column t p occupied) (cellList size) base base le_rfl
    hcells sD hfull
  unfold get_score
  rw [hR, hfull]
  have hn : 0 < (cellList size).length := by
    rw [cellList_length]
    positivity
  have hlt : ((4 * d / 5 : Int) : ℚ) < ((d.natAbs * 3 : Int) : ℚ) := by
    exact_mod_cast (by omega : 4 * d / 5 < (d.natAbs * 3 : Int))
  have hnq : (1 : ℚ) ≤ ((cellList size).length : ℚ) := by exact_mod_cast hn
  have key : ((cellList size).length : ℚ) * ((4 * d / 5 : Int) : ℚ)
      < ((cellList size).length : ℚ) * ((d.natAbs * 3 : Int) : ℚ) := by
    apply mul_lt_mul_of_pos_left hlt
    linarith
  show base + _ * _ + scoreModif < sD + scoreModif
  rw [hD]
  linarith

/-- Witness for `raising_scores_lower`: on a flat 1×1 footprint with
ground height 63, the candidate one block above ground scores 0 while the
candidate one block below ground scores 3. -/
theorem raising_scores_lower_witness :
    get_score (subplotSurface tFlat pFlat (fun _ => false)) (fun _ => false) ⟨0, 64, 0⟩
        ⟨1, 1⟩ 100 0 0
      < get_score (subplotSurface tFlat pFlat (fun _ => false)) (fun _ => false) ⟨0, 62, 0⟩
          ⟨1, 1⟩ 100 0 0 := by
  have hfull : scoreLoop (subplotSurface tFlat pFlat (fun _ => false)) (fun _ => false)
      ⟨0, 62, 0⟩ 100 (cellList ⟨1, 1⟩) 0 = .full 3 := by
    rw [show cellList ⟨1, 1⟩ = [(0, 0)] from by decide]
    rw [scoreLoop]
    norm_num [Coordinates.shift]
    rw [show subplotSurface tFlat pFlat (fun _ => false) ⟨0, 62, 0⟩ = some ⟨0, 63, 0⟩
      from by decide]
    norm_num [scoreLoop]
  refine raising_scores_lower tFlat pFlat (fun _ => false) 0 0 63 1 (by norm_num) ⟨1, 1⟩
    (by norm_num) (by norm_num) 100 0 0 ?_ 3 hfull
  intro pr hpr
  rw [show cellList ⟨1, 1⟩ = [(0, 0)] from by decide] at hpr
  rw [List.mem_singleton] at hpr
  subst hpr
  exact ⟨⟨0, 63, 0⟩, by decide, rfl, rfl⟩

/-- C7 counterexample: the strict inequality of the claim fails when the
early exit truncates the two evaluations differently.  Over a flat 1×4
footprint at ground height 63 with `max_score = 30`, the digging
candidate (10 below ground) exits at the first cell with score 30, while
the raising candidate (10 above ground) accumulates 8 per cell and exits
at the fourth cell with score 32 — the raising candidate scores
*higher*. -/
theorem claim7_counterexample :
    get_score (subplotSurface tFlat pFlat (fun _ => false)) (fun _ => false) ⟨0, 73, 0⟩
        ⟨1, 4⟩ 30 0 0 = 32 ∧
    get_score (subplotSurface tFlat pFlat (fun _ => false)) (fun _ => false) ⟨0, 53, 0⟩
        ⟨1, 4⟩ 30 0 0 = 30 ∧
    ¬ get_score (subplotSurface tFlat pFlat (fun _ => false)) (fun _ => false) ⟨0, 73, 0⟩
        ⟨1, 4⟩ 30 0 0
      < get_score (subplotSurface tFlat pFlat (fun _ => false)) (fun _ => false) ⟨0, 53, 0⟩
          ⟨1, 4⟩ 30 0 0 := by
  have hcells : cellList ⟨1, 4⟩ = [(0, 0), (0, 1), (0, 2), (0, 3)] := by decide
  have hR : get_score (subplotSurface tFlat pFlat (fun _ => false)) (fun _ => false)
      ⟨0, 73, 0⟩ ⟨1, 4⟩ 30 0 0 = 32 := by
    unfold get_score
    rw [hcells]
    rw [scoreLoop]
    norm_num [Coordinates.shift]
    rw [show subplotSurface tFlat pFlat (fun _ => false) ⟨0, 73, 0⟩ = some ⟨0, 63, 0⟩
      from by decide]
    norm_num
    rw [scoreLoop]
    norm_num [Coordinates.shift]
    rw [show subplotSurface tFlat pFlat (fun _ => false) ⟨0, 73, 1⟩ = some ⟨0, 63, 1⟩
      from by decide]
    norm_num
    rw [scoreLoop]
    norm_num [Coordinates.shift]
    rw [show subplotSurface tFlat pFlat (fun _ => false) ⟨0, 73, 2⟩ = some ⟨0, 63, 2⟩
      from by decide]
    norm_num
    rw [scoreLoop]
    norm_num [Coordinates.shift]
    rw [show subplotSurface tFlat pFlat (fun _ => false) ⟨0, 73, 3⟩ = some ⟨0, 63, 3⟩
      from by decide]
    norm_num
  have hD : get_score (subplotSurface tFlat pFlat (fun _ => false)) (fun _ => false)
      ⟨0, 53, 0⟩ ⟨1, 4⟩ 30 0 0 = 30 := by
    unfold get_score
    rw [hcells]
    rw [scoreLoop]
    norm_num [Coordinates.shift]
    rw [show subplotSurface tFlat pFlat (fun _ => false) ⟨0, 53, 0⟩ = some ⟨0, 63, 0⟩
      from by decide]
    norm_num
  refine ⟨hR, hD, ?_⟩
  rw [hR, hD]
  norm_num

/-! ### Road tiers (`Plot.__add_road_block`, `Plot.compute_roads`) -/

/-- The three road tiers, in the iteration order of `self.roads_infos`
(Python dicts iterate in insertion order: INNER, MIDDLE, OUTER). -/
inductive Tier where
  | INNER : Tier
  | MIDDLE : Tier
  | OUTER : Tier
deriving DecidableEq, Repr

/-- The key iteration order of `self.roads_infos`. -/
def roadKeys : List Tier := [Tier.INNER, Tier.MIDDLE, Tier.OUTER]

/-- The road-classification state: per-tier use counts
(`defaultdict(int)`; an absent key is `none`), the per-call
`__recently_added_roads` sets, `self.all_roads` and
`self.occupied_coordinates`. -/
structure RoadState where
  roads_infos : Tier → Coordinates → Option Nat
  recently : Tier → Coordinates → Bool
  all_roads : Coordinates → Bool
  occupied : Coordinates → Bool

/-- `self.roads_infos[key][road_coord] += 1` on a defaultdict: an absent
key appears with value 1. -/
def bumpTier (mp : Tier → Coordinates → Option Nat) (k : Tier) (rc : Coordinates) :
    Tier → Coordinates → Option Nat :=
  fun k' c => if k' = k ∧ c = rc then some ((mp k rc).getD 0 + 1) else mp k' c

/-- `self.roads_infos[key].pop(road_coord)`. -/
def popTier (mp : Tier → Coordinates → Option Nat) (k : Tier) (rc : Coordinates) :
    Tier → Coordinates → Option Nat :=
  fun k' c => if k' = k ∧ c = rc then none else mp k' c

/-- The key loop of `__add_road_block`, carrying the `delete` flag;
`none` models the early `return` taken when the coordinate is already
claimed by a higher-priority tier. -/
def addRoadLoop (recently : Tier → Coordinates → Bool) (placement : Tier) (rc : Coordinates) :
    List Tier → (Tier → Coordinates → Option Nat) → Bool →
      Option (Tier → Coordinates → Option Nat)
  | [], mp, _ => some mp
  | key :: rest, mp, del =>
    if key = placement then
      addRoadLoop recently placement rc rest
        (if recently placement rc then mp else bumpTier mp key rc) true
    else
      if (mp key rc).isSome then
        if del then addRoadLoop recently placement rc rest (popTier mp key rc) del
        else none
      else addRoadLoop recently placement rc rest mp del

/-- `Plot.__add_road_block`: on early return nothing changes; otherwise
the updated tier maps are installed and the 2D coordinate is added to the
recently-added set of its placement, to `all_roads` and to the occupied
set. -/
def add_road_block (st : RoadState) (coordinates : Coordinates) (placement : Tier) :
    RoadState :=
  match addRoadLoop st.recently placement coordinates.as_2D roadKeys st.roads_infos false with
  | none => st
  | some mp =>
    { roads_infos := mp
      recently := fun k c =>
        if k = placement ∧ c = coordinates.as_2D then true else st.recently k c
      all_roads := fun c => if c = coordinates.as_2D then true else st.all_roads c
      occupied := fun c => if c = coordinates.as_2D then true else st.occupied c }

/-- The classification block of `compute_roads` for one path cell: the
cell itself is INNER, its 4-neighbours MIDDLE, diagonal and two-step
neighbours OUTER, in source order. -/
def classifyCell (st : RoadState) (coord : Coordinates) : RoadState :=
  let s1 := add_road_block st coord Tier.INNER
  let s2 := add_road_block s1 (coord.shift 1 0 0) Tier.MIDDLE
  let s3 := add_road_block s2 (coord.shift (-1) 0 0) Tier.MIDDLE
  let s4 := add_road_block s3 (coord.shift 0 0 1) Tier.MIDDLE
  let s5 := add_road_block s4 (coord.shift 0 0 (-1)) Tier.MIDDLE
  let s6 := add_road_block s5 (coord.shift 1 0 1) Tier.OUTER
  let s7 := add_road_block s6 (coord.shift (-1) 0 1) Tier.OUTER
  let s8 := add_road_block s7 (coord.shift 1 0 (-1)) Tier.OUTER
  let s9 := add_road_block s8 (coord.shift (-1) 0 (-1)) Tier.OUTER
  let s10 := add_road_block s9 (coord.shift 2 0 0) Tier.OUTER
  let s11 := add_road_block s10 (coord.shift (-2) 0 0) Tier.OUTER
  let s12 := add_road_block s11 (coord.shift 0 0 2) Tier.OUTER
  add_road_block s12 (coord.shift 0 0 (-2)) Tier.OUTER

/-- The classification phase of `compute_roads`: reset
`__recently_added_roads`, then classify every path cell in order. -/
def classifyPath (st : RoadState) (path : List Coordinates) : RoadState :=
  path.foldl classifyCell
    { st with recently := fun _ _ => false }

/-- A coordinate belongs to at most one tier. -/
def TiersDisjoint (st : RoadState) : Prop :=
  ∀ c : Coordinates,
    ¬((st.roads_infos Tier.INNER c).isSome = true ∧
      (st.roads_infos Tier.MIDDLE c).isSome = true) ∧
    ¬((st.roads_infos Tier.INNER c).isSome = true ∧
      (st.roads_infos Tier.OUTER c).isSome = true) ∧
    ¬((st.roads_infos Tier.MIDDLE c).isSome = true ∧
      (st.roads_infos Tier.OUTER c).isSome = true)

/-- Strictly higher priority: INNER beats MIDDLE beats OUTER. -/
def tierLt : Tier → Tier → Prop
  | Tier.INNER, Tier.MIDDLE => True
  | Tier.INNER, Tier.OUTER => True
  | Tier.MIDDLE, Tier.OUTER => True
  | _, _ => False

/-- A cell recently added as INNER in the current call is present in the
INNER map. -/
def RecentlyInv (st : RoadState) : Prop :=
  ∀ c : Coordinates, st.recently Tier.INNER c = true →
    (st.roads_infos Tier.INNER c).isSome = true

/-- Closed form of `__add_road_block` with `placement = 'INNER'`: the
highest-priority key is reached first, so there is never an early return;
the INNER count is bumped (unless the cell was already added this call)
and the cell is removed from MIDDLE and OUTER. -/
theorem add_INNER_eq (st : RoadState) (coord : Coordinates) :
    add_road_block st coord Tier.INNER =
      { roads_infos := fun k c =>
          if k = Tier.INNER ∧ c = coord.as_2D then
            (if st.recently Tier.INNER coord.as_2D = true then
              st.roads_infos Tier.INNER coord.as_2D
            else some ((st.roads_infos Tier.INNER coord.as_2D).getD 0 + 1))
          else if (k = Tier.MIDDLE ∨ k = Tier.OUTER) ∧ c = coord.as_2D then none
          else st.roads_infos k c
        recently := fun k c =>
          if k = Tier.INNER ∧ c = coord.as_2D then true else st.recently k c
        all_roads := fun c => if c = coord.as_2D then true else st.all_roads c
        occupied := fun c => if c = coord.as_2D then true else st.occupied c } := by
  unfold add_road_block
  simp only [roadKeys, addRoadLoop, reduceCtorEq, if_false, if_true, Bool.false_eq_true]
  split_ifs <;> simp_all [bumpTier, popTier] <;>
    (funext k c) <;> cases k <;> by_cases hc : c = coord.as_2D <;>
    simp_all [bumpTier, popTier]

/-- Closed form of `__add_road_block` with `placement = 'MIDDLE'`: early
return when the cell is INNER; otherwise bump MIDDLE and pop OUTER. -/
theorem add_MIDDLE_eq (st : RoadState) (coord : Coordinates) :
    add_road_block st coord Tier.MIDDLE =
      if (st.roads_infos Tier.INNER coord.as_2D).isSome = true then st
      else
        { roads_infos := fun k c =>
            if k = Tier.MIDDLE ∧ c = coord.as_2D then
              (if st.recently Tier.MIDDLE coord.as_2D = true then
                st.roads_infos Tier.MIDDLE coord.as_2D
              else some ((st.roads_infos Tier.MIDDLE coord.as_2D).getD 0 + 1))
            else if k = Tier.OUTER ∧ c = coord.as_2D then none
            else st.roads_infos k c
          recently := fun k c =>
            if k = Tier.MIDDLE ∧ c = coord.as_2D then true else st.recently k c
          all_roads := fun c => if c = coord.as_2D then true else st.all_roads c
          occupied := fun c => if c = coord.as_2D then true else st.occupied c } := by
  unfold add_road_block
  simp only [roadKeys, addRoadLoop, reduceCtorEq, if_false, if_true, Bool.false_eq_true]
  split_ifs <;> simp_all [bumpTier, popTier] <;>
    (funext k c) <;> cases k <;> by_cases hc : c = coord.as_2D <;>
    simp_all [bumpTier, popTier]

/-- Closed form of `__add_road_block` with `placement = 'OUTER'`: early
return when the cell is INNER or MIDDLE; otherwise bump OUTER. -/
theorem add_OUTER_eq (st : RoadState) (coord : Coordinates) :
    add_road_block st coord Tier.OUTER =
      if (st.roads_infos Tier.INNER coord.as_2D).isSome = true ∨
          (st.roads_infos Tier.MIDDLE coord.as_2D).isSome = true then st
      else
        { roads_infos := fun k c =>
            if k = Tier.OUTER ∧ c = coord.as_2D then
              (if st.recently Tier.OUTER coord.as_2D = true then
                st.roads_infos Tier.OUTER coord.as_2D
              else some ((st.roads_infos Tier.OUTER coord.as_2D).getD 0 + 1))
            else st.roads_infos k c
          recently := fun k c =>
            if k = Tier.OUTER ∧ c = coord.as_2D then true else st.recently k c
          all_roads := fun c => if c = coord.as_2D then true else st.all_roads c
          occupied := fun c => if c = coord.as_2D then true else st.occupied c } := by
  unfold add_road_block
  simp only [roadKeys, addRoadLoop, reduceCtorEq, if_false, if_true, Bool.false_eq_true]
  split_ifs <;> simp_all [bumpTier, popTier]
  · funext k c
    split
    · next hkc => rw [hkc.1, hkc.2]
    · rfl
  · rfl

/-- A cell already claimed by a strictly higher-priority tier is left
untouched by a lower-priority claim (the early `return`). -/
theorem add_no_downgrade (st : RoadState) (coord : Coordinates) (k placement : Tier)
    (hk : tierLt k placement) (hp : (st.roads_infos k coord.as_2D).isSome = true) :
    add_road_block st coord placement = st := by
  cases k with
  | INNER =>
    cases placement with
    | INNER => simp [tierLt] at hk
    | MIDDLE => rw [add_MIDDLE_eq, if_pos hp]
    | OUTER => rw [add_OUTER_eq, if_pos (Or.inl hp)]
  | MIDDLE =>
    cases placement with
    | INNER => simp [tierLt] at hk
    | MIDDLE => simp [tierLt] at hk
    | OUTER => rw [add_OUTER_eq, if_pos (Or.inr hp)]
  | OUTER => cases placement <;> simp [tierLt] at hk

/-- Membership in the INNER tier is never lost. -/
theorem add_inner_persists (st : RoadState) (coord : Coordinates) (p : Tier)
    (c : Coordinates) (h : (st.roads_infos Tier.INNER c).isSome = true) :
    ((add_road_block st coord p).roads_infos Tier.INNER c).isSome = true := by
  cases p with
  | INNER =>
    rw [add_INNER_eq]
    simp only
    by_cases hc : c = coord.as_2D
    · subst hc
      by_cases hr : st.recently Tier.INNER coord.as_2D = true <;> simp [hr, h]
    · simp [hc, h]
  | MIDDLE =>
    rw [add_MIDDLE_eq]
    split
    · exact h
    · simp [h]
  | OUTER =>
    rw [add_OUTER_eq]
    split
    · exact h
    · simp [h]

/-- The recently-added-as-INNER invariant survives every add. -/
theorem add_recentlyInv (st : RoadState) (coord : Coordinates) (p : Tier)
    (hinv : RecentlyInv st) : RecentlyInv (add_road_block st coord p) := by
  intro c hc
  cases p with
  | INNER =>
    rw [add_INNER_eq] at hc ⊢
    simp only at hc ⊢
    by_cases hcrc : c = coord.as_2D
    · subst hcrc
      rw [if_pos (by simp)]
      by_cases hr : st.recently Tier.INNER coord.as_2D = true
      · simp [hr, hinv coord.as_2D hr]
      · simp [hr]
    · rw [if_neg (by simp [hcrc])] at hc
      rw [if_neg (by simp [hcrc]), if_neg (by simp [hcrc])]
      exact hinv c hc
  | MIDDLE =>
    refine add_inner_persists st coord Tier.MIDDLE c ?_
    rw [add_MIDDLE_eq] at hc
    split at hc
    · exact hinv c hc
    · simp only at hc
      rw [if_neg (by simp)] at hc
      exact hinv c hc
  | OUTER =>
    refine add_inner_persists st coord Tier.OUTER c ?_
    rw [add_OUTER_eq] at hc
    split at hc
    · exact hinv c hc
    · simp only at hc
      rw [if_neg (by simp)] at hc
      exact hinv c hc

/-- Adding a cell as INNER makes it INNER (the bump inserts it; when it
was recently added in the same call it is already present). -/
theorem add_inner_present (st : RoadState) (coord : Coordinates) (hinv : RecentlyInv st) :
    ((add_road_block st coord Tier.INNER).roads_infos Tier.INNER coord.as_2D).isSome
      = true := by
  rw [add_INNER_eq]
  simp only
  rw [if_pos (by simp)]
  by_cases hr : st.recently Tier.INNER coord.as_2D = true
  · simp [hr, hinv coord.as_2D hr]
  · simp [hr]

/-- Tier disjointness is preserved by every `__add_road_block` call. -/
theorem add_disjoint (st : RoadState) (coord : Coordinates) (p : Tier)
    (hd : TiersDisjoint st) : TiersDisjoint (add_road_block st coord p) := by
  intro c
  cases p with
  | INNER =>
    rw [add_INNER_eq]
    simp only
    by_cases hc : c = coord.as_2D
    · subst hc
      simp
    · simp only [hc, and_false, if_false, false_and]
      exact hd c
  | MIDDLE =>
    rw [add_MIDDLE_eq]
    split
    · exact hd c
    · next hin =>
      simp only
      by_cases hc : c = coord.as_2D
      · subst hc
        simp [hin]
      · simp only [hc, and_false, if_false]
        exact hd c
  | OUTER =>
    rw [add_OUTER_eq]
    split
    · exact hd c
    · next hin =>
      push_neg at hin
      by_cases hc : c = coord.as_2D
      · subst hc
        simp [hin.1, hin.2]
      · simp only [hc, and_false, if_false]
        exact hd c

/-- One path cell's classification keeps the invariants and puts the cell
itself in the INNER tier. -/
theorem classifyCell_recentlyInv (st : RoadState) (coord : Coordinates)
    (hinv : RecentlyInv st) : RecentlyInv (classifyCell st coord) := by
  unfold classifyCell
  iterate 13 apply add_recentlyInv
  exact hinv

theorem classifyCell_disjoint (st : RoadState) (coord : Coordinates)
    (hd : TiersDisjoint st) : TiersDisjoint (classifyCell st coord) := by
  unfold classifyCell
  iterate 13 apply add_disjoint
  exact hd

theorem classifyCell_inner_persists (st : RoadState) (coord c : Coordinates)
    (h : (st.roads_infos Tier.INNER c).isSome = true) :
    ((classifyCell st coord).roads_infos Tier.INNER c).isSome = true := by
  unfold classifyCell
  iterate 13 apply add_inner_persists
  exact h

theorem classifyCell_inner (st : RoadState) (coord : Coordinates) (hinv : RecentlyInv st) :
    ((classifyCell st coord).roads_infos Tier.INNER coord.as_2D).isSome = true := by
  unfold classifyCell
  iterate 12 apply add_inner_persists
  exact add_inner_present st coord hinv

/-- INNER membership persists over classifying the rest of a path. -/
theorem classifyFold_inner_persists :
    ∀ (cells : List Coordinates) (st : RoadState) (c : Coordinates),
      (st.roads_infos Tier.INNER c).isSome = true →
      ((cells.foldl classifyCell st).roads_infos Tier.INNER c).isSome = true
  | [], _, _, h => h
  | d :: rest, st, c, h => by
    rw [List.foldl_cons]
    exact classifyFold_inner_persists rest _ c (classifyCell_inner_persists st d c h)

/-- Every cell of the classified path ends in the INNER tier. -/
theorem classifyFold_inner :
    ∀ (cells : List Coordinates) (st : RoadState), RecentlyInv st →
      ∀ c ∈ cells, ((cells.foldl classifyCell st).roads_infos Tier.INNER c.as_2D).isSome
        = true
  | [], _, _, c, hc => absurd hc (List.not_mem_nil _)
  | d :: rest, st, hinv, c, hc => by
    rw [List.foldl_cons]
    rcases List.mem_cons.mp hc with rfl | hmem
    · exact classifyFold_inner_persists rest _ c.as_2D (classifyCell_inner st c hinv)
    · exact classifyFold_inner rest _ (classifyCell_recentlyInv st d hinv) c hmem

/-- C6: road-tier consistency.  (i) every `__add_road_block` call keeps
the three tier maps pairwise disjoint, so after any sequence of
classification operations a 2D coordinate belongs to at most one tier;
(ii) a coordinate already claimed by a strictly higher-priority tier is
never moved or touched by a lower-priority claim (the call returns with
no change); (iii) after `compute_roads` classifies a path, every path
cell's 2D projection is in the INNER tier. -/
theorem road_tiers_consistent :
    (∀ (st : RoadState) (coord : Coordinates) (placement : Tier),
        TiersDisjoint st → TiersDisjoint (add_road_block st coord placement)) ∧
    (∀ (st : RoadState) (coord : Coordinates) (k placement : Tier),
        tierLt k placement → (st.roads_infos k coord.as_2D).isSome = true →
        add_road_block st coord placement = st) ∧
    (∀ (st : RoadState) (path : List Coordinates), ∀ c ∈ path,
        ((classifyPath st path).roads_infos Tier.INNER c.as_2D).isSome = true) := by
  refine ⟨add_disjoint, add_no_downgrade, ?_⟩
  intro st path c hc
  unfold classifyPath
  exact classifyFold_inner path _ (fun c' hc' => by simp at hc') c hc

/-- Witness for `road_tiers_consistent`: classifying the one-cell path
`[cellA]` from the empty road state puts `cellA`'s 2D projection in the
INNER tier. -/
theorem road_tiers_consistent_witness :
    ((classifyPath ⟨fun _ _ => none, fun _ _ => false, fun _ => false, fun _ => false⟩
        [cellA]).roads_infos Tier.INNER cellA.as_2D).isSome = true :=
  road_tiers_consistent.2.2
    ⟨fun _ _ => none, fun _ _ => false, fun _ => false, fun _ => false⟩
    [cellA] cellA (List.mem_singleton_self cellA)

/-! ### Road equalisation (`Plot.equalize_roads`) -/

/-- Modelled from the spec: `Coordinates.around_2d(radius)` (not among
the provided sources) enumerates the cells within the given radius of the
coordinate in the xz-plane, the cell itself included. -/
def around_2d (c : Coordinates) (radius : Nat) : List Coordinates :=
  ((List.range (2 * radius + 1)).map fun (a : Nat) =>
    (List.range (2 * radius + 1)).map fun (b : Nat) =>
      c.shift ((a : Int) - radius) 0 ((b : Int) - radius)).flatten

/-- The heights collected by `Plot.equalize_roads` for one road cell: the
surface blocks found at the road-tagged cells within radius 5
(`filter(lambda r: r.as_2D() in self.all_roads, road.around_2d(5))`
mapped through `find`, keeping the found ones). -/
def equalizeNeighborsY (t : Terrain) (p : Plot) (all_roads : Coordinates → Bool)
    (road : Coordinates) : List Int :=
  ((((around_2d road 5).filter fun r => all_roads r.as_2D).filterMap
    fun r => surface_find t p r).map fun block => block.y)

/-- `roads_y[road.as_2D()] = sum(neighbors_y) / max(len(neighbors_y), 1)`
(float division in the source, exact rational here). -/
def equalizeY (t : Terrain) (p : Plot) (all_roads : Coordinates → Bool)
    (road : Coordinates) : ℚ :=
  ((equalizeNeighborsY t p all_roads road).sum : ℚ)
    / (max (equalizeNeighborsY t p all_roads road).length 1 : Nat)

/-- A list all of whose members equal `a` sums to `length * a`. -/
theorem listSum_const : ∀ (l : List Int) (a : Int), (∀ x ∈ l, x = a) →
    l.sum = l.length * a
  | [], a, _ => by simp
  | x :: rest, a, h => by
    rw [List.sum_cons, listSum_const rest a (fun y hy => h y (List.mem_cons_of_mem _ hy)),
      h x (List.mem_cons_self _ _)]
    simp only [List.length_cons]
    push_cast
    ring

/-- A coordinate is within radius 5 of itself. -/
theorem self_mem_around (c : Coordinates) : c ∈ around_2d c 5 := by
  unfold around_2d
  rw [List.mem_flatten]
  refine ⟨(List.range 11).map fun (b : Nat) =>
      c.shift ((5 : Int) - 5) 0 ((b : Int) - 5), ?_, ?_⟩
  · exact List.mem_map.mpr ⟨5, List.mem_range.mpr (by norm_num), rfl⟩
  · refine List.mem_map.mpr ⟨5, List.mem_range.mpr (by norm_num), ?_⟩
    show c.shift ((5 : Int) - 5) 0 ((5 : Int) - 5) = c
    simp [Coordinates.shift]

/-- C9: for every road coordinate, `equalize_roads` computes the average
elevation of the road-tagged cells whose surface blocks are found within
radius 5: (i) when at least one such cell is found, the target height is
exactly their mean; (ii) in particular, when the road cell itself is on
the surface and every found nearby road cell shares its elevation — e.g.
when no *other* road cell is found nearby — the target height is the
coordinate's own elevation. -/
theorem equalize_roads_average (t : Terrain) (p : Plot) (all_roads : Coordinates → Bool)
    (road : Coordinates) :
    (equalizeNeighborsY t p all_roads road ≠ [] →
      equalizeY t p all_roads road
        = ((equalizeNeighborsY t p all_roads road).sum : ℚ)
            / (equalizeNeighborsY t p all_roads road).length) ∧
    (∀ g, surface_find t p road = some g → all_roads road.as_2D = true →
      (∀ r ∈ around_2d road 5, all_roads r.as_2D = true →
        ∀ b, surface_find t p r = some b → b.y = g.y) →
      equalizeY t p all_roads road = (g.y : ℚ)) := by
  constructor
  · intro hne
    unfold equalizeY
    have : max (equalizeNeighborsY t p all_roads road).length 1
        = (equalizeNeighborsY t p all_roads road).length := by
      have := List.length_pos.mpr hne
      omega
    rw [this]
  · intro g hg hroad hall
    have hmem : g.y ∈ equalizeNeighborsY t p all_roads road := by
      unfold equalizeNeighborsY
      refine List.mem_map.mpr ⟨g, ?_, rfl⟩
      refine List.mem_filterMap.mpr ⟨road, ?_, hg⟩
      exact List.mem_filter.mpr ⟨self_mem_around road, hroad⟩
    have hconst : ∀ y ∈ equalizeNeighborsY t p all_roads road, y = g.y := by
      intro y hy
      unfold equalizeNeighborsY at hy
      obtain ⟨b, hb, rfl⟩ := List.mem_map.mp hy
      obtain ⟨r, hr, hfind⟩ := List.mem_filterMap.mp hb
      obtain ⟨hrmem, hrtag⟩ := List.mem_filter.mp hr
      exact hall r hrmem hrtag b hfind
    have hne : equalizeNeighborsY t p all_roads road ≠ [] := by
      intro h
      rw [h] at hmem
      exact absurd hmem (List.not_mem_nil _)
    have hlen : 0 < (equalizeNeighborsY t p all_roads road).length :=
      List.length_pos.mpr hne
    unfold equalizeY
    rw [listSum_const _ g.y hconst]
    have hmax : max (equalizeNeighborsY t p all_roads road).length 1
        = (equalizeNeighborsY t p all_roads road).length := by omega
    rw [hmax]
    have hnez : ((equalizeNeighborsY t p all_roads road).length : ℚ) ≠ 0 := by
      exact_mod_cast Nat.pos_iff_ne_zero.mp hlen
    push_cast
    field_simp

/-- Witness for `equalize_roads_average`: a lone road cell at the flat
plot's origin is levelled to its own surface height 63. -/
theorem equalize_roads_average_witness :
    equalizeY tFlat pFlat (fun c => decide (c = ⟨0, 0, 0⟩)) ⟨0, 0, 0⟩ = (63 : ℚ) :=
  (equalize_roads_average tFlat pFlat (fun c => decide (c = ⟨0, 0, 0⟩)) ⟨0, 0, 0⟩).2
    ⟨0, 63, 0⟩ (by decide) (by decide) (by decide)
